import Mathlib

/-!
Verification of the turn-based world scheduler of `src/game-world.c`
(speed/energy model, world clock and calendar, the world tick processor
`process_world`, the noise and scent diffusion algorithms, the main loop
orchestrator, and the new-level energy floor).

Each C function used by a claim is translated into an executable Lean
definition; machine integers are modelled by `Nat`/`Int` (the values
involved stay far below any relevant word size), and collaborator
functions that live in other translation units are either abstracted as
parameters or modelled from the specification, as noted at each
definition.
-/

set_option maxRecDepth 100000
set_option maxHeartbeats 1000000

namespace Angband

/-! ## Grid locations

`struct loc` has `int` coordinates; we use `Int` pairs. -/

/-- A grid location, `struct loc` (fields `x` and `y`, both C `int`). -/
structure Loc where
  y : Int
  x : Int
deriving DecidableEq, Repr

/-- `loc_sum` from `z-type.c`: componentwise sum of two locations. -/
def loc_sum (a b : Loc) : Loc := ⟨a.y + b.y, a.x + b.x⟩

/-- The eight neighbour offsets `ddgrid_ddd[0..7]` (`cave.c`: the keypad
directions in the order S, N, E, W, SE, SW, NE, NW, with y growing
downwards). -/
def ddgrid_ddd : List Loc :=
  [⟨1, 0⟩, ⟨-1, 0⟩, ⟨0, 1⟩, ⟨0, -1⟩, ⟨1, 1⟩, ⟨1, -1⟩, ⟨-1, 1⟩, ⟨-1, -1⟩]

/-- `grid_to_i` from `cave.c`: encode a grid as `y * width + x`. -/
def grid_to_i (l : Loc) (w : Int) : Int := l.y * w + l.x

/-- `i_to_grid` from `cave.c`: decode an index into a grid location. -/
def i_to_grid (n w : Int) : Loc := ⟨n / w, n % w⟩

/-- The grid encoding used by the noise queue round-trips on any
location that lies inside a width-`w` grid; this justifies storing
decoded locations directly in the modelled queue. -/
theorem i_to_grid_grid_to_i (l : Loc) (w : Int) (hx0 : 0 ≤ l.x) (hxw : l.x < w) :
    i_to_grid (grid_to_i l w) w = l := by
  unfold i_to_grid grid_to_i
  have hw : 0 < w := lt_of_le_of_lt hx0 hxw
  have hdiv : (l.y * w + l.x) / w = l.y := by
    rw [add_comm, Int.add_mul_ediv_right _ _ (ne_of_gt hw),
      Int.ediv_eq_zero_of_lt hx0 hxw]
    ring
  have hmod : (l.y * w + l.x) % w = l.x := by
    rw [add_comm, Int.add_mul_emod_self]
    exact Int.emod_eq_of_lt hx0 hxw
  simp [hdiv, hmod]

/-! ## Energy model -/

/-- The speed-to-energy table `extract_energy[200]` from `game-world.c`,
copied entry for entry. -/
def extract_energy : List Nat :=
  [ 1,  1,  1,  1,  1,  1,  1,  1,  1,  1,
    1,  1,  1,  1,  1,  1,  1,  1,  1,  1,
    1,  1,  1,  1,  1,  1,  1,  1,  1,  1,
    1,  1,  1,  1,  1,  1,  1,  1,  1,  1,
    1,  1,  1,  1,  1,  1,  1,  1,  1,  1,
    1,  1,  1,  1,  1,  1,  1,  1,  1,  1,
    1,  1,  1,  1,  1,  1,  1,  1,  1,  1,
    2,  2,  2,  2,  2,  2,  2,  2,  2,  2,
    2,  2,  2,  2,  2,  2,  2,  3,  3,  3,
    3,  3,  3,  3,  3,  4,  4,  4,  4,  4,
    5,  5,  5,  5,  6,  6,  7,  7,  8,  9,
   10, 11, 12, 13, 14, 15, 16, 17, 18, 19,
   20, 21, 22, 23, 24, 25, 26, 27, 28, 29,
   30, 31, 32, 33, 34, 35, 36, 36, 37, 37,
   38, 38, 39, 39, 40, 40, 40, 41, 41, 41,
   42, 42, 42, 43, 43, 43, 44, 44, 44, 44,
   45, 45, 45, 45, 45, 46, 46, 46, 46, 46,
   47, 47, 47, 47, 47, 48, 48, 48, 48, 48,
   49, 49, 49, 49, 49, 49, 49, 49, 49, 49,
   49, 49, 49, 49, 49, 49, 49, 49, 49, 49 ]

/-- `turn_energy` from `game-world.c`: the energy gained in a turn by a
player or monster of the given speed.  `z_info->move_energy` is the
configured base energy constant, passed here as `move_energy`. -/
def turn_energy (move_energy : Nat) (speed : Nat) : Nat :=
  (extract_energy.getD speed 0) * move_energy / 100

/-! ## New-level energy floor

The tail of `on_new_level` in `game-world.c`:

    if (player->energy < z_info->move_energy)
        player->energy = z_info->move_energy;
-/

/-- The energy adjustment performed by `on_new_level`: raise the
player's energy to `move_energy` when it is below that threshold. -/
def on_new_level_energy (move_energy energy : Nat) : Nat :=
  if energy < move_energy then move_energy else energy

/-! ## The current level's terrain

`struct chunk` fields relevant to the diffusion algorithms: dimensions
and the per-square terrain predicates `square_isnoflow` (terrain blocks
sound) and `square_isnoscent` (terrain blocks scent), which read terrain
flags maintained elsewhere and are modelled as fields. -/

/-- The terrain data of the current level used by noise and scent. -/
structure Cave where
  height : Int
  width : Int
  noflow : Loc → Bool
  noscent : Loc → Bool

/-- `square_in_bounds` from `cave.c`. -/
def square_in_bounds (c : Cave) (l : Loc) : Bool :=
  decide (0 ≤ l.x) && decide (l.x < c.width) && decide (0 ≤ l.y) && decide (l.y < c.height)

/-- `square_in_bounds_fully` from `cave.c` (strictly inside the outer
border). -/
def square_in_bounds_fully (c : Cave) (l : Loc) : Bool :=
  decide (1 ≤ l.x) && decide (l.x < c.width - 1) && decide (1 ≤ l.y) && decide (l.y < c.height - 1)

/-! ## Scent propagation (`update_scent`)

Phase (a), aging: the double loop `for (y = 1; y < cave->height - 1;
y++) for (x = 1; x < cave->width - 1; x++)` increments every positive
scent value in the fully-in-bounds region.  Phase (b), lay-down: the
5×5 kernel `scent_strength` is scanned in row-major order and each cell
is written when the C `add_scent` flag test passes. -/

/-- Phase (a) of `update_scent`: age every positive scent value in the
fully-in-bounds region by one. -/
def scent_age (c : Cave) (G : Loc → Nat) : Loc → Nat :=
  fun l => if square_in_bounds_fully c l = true ∧ 0 < G l then G l + 1 else G l

/-- The `scent_strength[5][5]` kernel from `update_scent`. -/
def scent_strength : List (List Nat) :=
  [[2, 2, 2, 2, 2],
   [2, 1, 1, 1, 2],
   [2, 1, 0, 1, 2],
   [2, 1, 1, 1, 2],
   [2, 2, 2, 2, 2]]

/-- The grid written by kernel entry `(y, x)`:
`scent.y = y + player->grid.y - 2; scent.x = x + player->grid.x - 2`. -/
def kernel_cell (p : Loc) (yx : Nat × Nat) : Loc :=
  ⟨(yx.1 : Int) + p.y - 2, (yx.2 : Int) + p.x - 2⟩

/-- `new_scent = scent_strength[y][x]`. -/
def kernel_val (yx : Nat × Nat) : Nat :=
  (scent_strength.getD yx.1 []).getD yx.2 0

/-- One iteration of the kernel double loop in `update_scent`: kernel
entry `yx` is skipped if its cell is out of bounds or its terrain blocks
scent; otherwise the `add_scent` flag is computed over the eight
neighbours (the player's own kernel entry `x == 2 && y == 2` validates
whenever some neighbour is in bounds; otherwise some in-bounds neighbour
must hold exactly `new_scent - 1`, an `int` comparison, so the value 0
entry can never validate through it) and on success the cell is
overwritten with `new_scent`. -/
def lay_scent_at (c : Cave) (p : Loc) (G : Loc → Nat) (yx : Nat × Nat) : Loc → Nat :=
  let scent := kernel_cell p yx
  let new_scent := kernel_val yx
  if square_in_bounds c scent = false then G
  else if c.noscent scent = true then G
  else if ddgrid_ddd.any (fun d =>
      square_in_bounds c (loc_sum scent d) &&
      ((decide (yx.2 = 2) && decide (yx.1 = 2)) ||
        ((G (loc_sum scent d) : Int) == (new_scent : Int) - 1)))
  then Function.update G scent new_scent
  else G

/-- The kernel entries in the order the double loop visits them
(row-major, `y` outer, `x` inner). -/
def kernel_indices : List (Nat × Nat) :=
  [(0,0),(0,1),(0,2),(0,3),(0,4),
   (1,0),(1,1),(1,2),(1,3),(1,4),
   (2,0),(2,1),(2,2),(2,3),(2,4),
   (3,0),(3,1),(3,2),(3,3),(3,4),
   (4,0),(4,1),(4,2),(4,3),(4,4)]

/-- `update_scent` from `game-world.c`: age all scent, then — unless the
player's track-covering condition `TMD_COVERTRACKS` is active — lay new
scent around the player. -/
def update_scent (c : Cave) (p : Loc) (covertracks : Bool) (G : Loc → Nat) : Loc → Nat :=
  let aged := scent_age c G
  if covertracks then aged
  else kernel_indices.foldl (lay_scent_at c p) aged

/-- The state of the scent grid after the first `n` kernel entries of
the lay-down pass have been processed, starting from the aged grid `A`. -/
def lay_steps (c : Cave) (p : Loc) (A : Loc → Nat) (n : Nat) : Loc → Nat :=
  (kernel_indices.take n).foldl (lay_scent_at c p) A

/-- The `add_scent` validity test of kernel entry `yx` against grid
state `G`, together with the bounds and terrain checks that precede
it. -/
def scent_cond (c : Cave) (p : Loc) (G : Loc → Nat) (yx : Nat × Nat) : Bool :=
  square_in_bounds c (kernel_cell p yx) && !c.noscent (kernel_cell p yx) &&
  ddgrid_ddd.any (fun d =>
    square_in_bounds c (loc_sum (kernel_cell p yx) d) &&
    ((decide (yx.2 = 2) && decide (yx.1 = 2)) ||
      ((G (loc_sum (kernel_cell p yx) d) : Int) == (kernel_val yx : Int) - 1)))

/-- `lay_scent_at` either overwrites its own kernel cell (when the
validity test passes) or does nothing. -/
theorem lay_scent_at_eq (c : Cave) (p : Loc) (G : Loc → Nat) (yx : Nat × Nat) :
    lay_scent_at c p G yx =
      if scent_cond c p G yx = true
      then Function.update G (kernel_cell p yx) (kernel_val yx)
      else G := by
  unfold lay_scent_at scent_cond
  rcases hb : square_in_bounds c (kernel_cell p yx) with _ | _ <;>
    rcases hs : c.noscent (kernel_cell p yx) with _ | _ <;>
      simp [hb, hs]

/-- A kernel step never changes any cell other than its own. -/
theorem lay_scent_at_frame (c : Cave) (p : Loc) (G : Loc → Nat) (yx : Nat × Nat)
    (l : Loc) (h : l ≠ kernel_cell p yx) :
    lay_scent_at c p G yx l = G l := by
  rw [lay_scent_at_eq]
  split
  · exact Function.update_noteq h _ _
  · rfl

/-- Distinct kernel entries write distinct cells. -/
theorem kernel_cell_injective (p : Loc) (a b : Nat × Nat)
    (h : kernel_cell p a = kernel_cell p b) : a = b := by
  unfold kernel_cell at h
  have hy' : (a.1 : Int) + p.y - 2 = (b.1 : Int) + p.y - 2 := congrArg Loc.y h
  have hx' : (a.2 : Int) + p.x - 2 = (b.2 : Int) + p.x - 2 := congrArg Loc.x h
  have hy : (a.1 : Int) = (b.1 : Int) := by linarith
  have hx : (a.2 : Int) = (b.2 : Int) := by linarith
  exact Prod.ext (Int.ofNat_inj.mp hy) (Int.ofNat_inj.mp hx)

/-! ## Concrete test level used by the witnesses -/

/-- A small all-floor level whose outer border blocks both sound and
scent (as the permanent boundary walls of a generated level do). -/
def test_cave : Cave :=
  { height := 5, width := 5,
    noflow := fun l => decide (¬ (1 ≤ l.x ∧ l.x < 4 ∧ 1 ≤ l.y ∧ l.y < 4)),
    noscent := fun l => decide (¬ (1 ≤ l.x ∧ l.x < 4 ∧ 1 ≤ l.y ∧ l.y < 4)) }

/-- A scent grid on `test_cave` holding a single aged trace at the
centre. -/
def test_scent_grid : Loc → Nat := fun l => if l = ⟨2, 2⟩ then 3 else 0

/-! ## Claim theorems: scent frame effect under `TMD_COVERTRACKS` -/

/-- C9: while the track-covering condition is active, `update_scent`
lays no fresh scent: every in-bounds cell of the scent grid (the
player's own cell and the 5×5 kernel included) is either left at 0 or
incremented by exactly 1 by the aging phase.  The hypothesis that border
cells hold no scent is an invariant of the game (they are never written,
since their terrain blocks scent). -/
theorem covertracks_no_fresh_scent (c : Cave) (p : Loc) (G : Loc → Nat)
    (hborder : ∀ l, square_in_bounds c l = true →
      square_in_bounds_fully c l = false → G l = 0) :
    ∀ l, square_in_bounds c l = true →
      (G l = 0 → update_scent c p true G l = 0) ∧
      (0 < G l → update_scent c p true G l = G l + 1) := by
  intro l hb
  have hus : update_scent c p true G l = scent_age c G l := rfl
  constructor
  · intro h0
    rw [hus]
    unfold scent_age
    simp [h0]
  · intro hpos
    rw [hus]
    have hf : square_in_bounds_fully c l = true := by
      rcases hff : square_in_bounds_fully c l with _ | _
      · have := hborder l hb hff
        omega
      · rfl
    unfold scent_age
    simp [hf, hpos]

/-- Witness for C9 on `test_cave`: the aged centre trace becomes 4 and a
never-scented cell stays 0. -/
theorem covertracks_no_fresh_scent_witness :
    update_scent test_cave ⟨2, 2⟩ true test_scent_grid ⟨2, 2⟩ = 4 ∧
    update_scent test_cave ⟨2, 2⟩ true test_scent_grid ⟨1, 1⟩ = 0 := by
  have hborder : ∀ l, square_in_bounds test_cave l = true →
      square_in_bounds_fully test_cave l = false → test_scent_grid l = 0 := by
    intro l h1 h2
    unfold test_scent_grid
    rcases he : decide (l = (⟨2, 2⟩ : Loc)) with _ | _
    · simp at he
      simp [he]
    · simp at he
      subst he
      exact absurd h2 (by decide)
  have h1 := (covertracks_no_fresh_scent test_cave ⟨2, 2⟩ test_scent_grid hborder
    ⟨2, 2⟩ (by decide)).2 (by decide)
  have h2 := (covertracks_no_fresh_scent test_cave ⟨2, 2⟩ test_scent_grid hborder
    ⟨1, 1⟩ (by decide)).1 (by decide)
  refine ⟨?_, h2⟩
  rw [h1]
  decide

/-! ## The lay-down pass, step by step -/

/-- A sequence of kernel steps leaves every cell that none of them
writes unchanged. -/
theorem foldl_lay_frame (c : Cave) (p : Loc) (L : List (Nat × Nat)) (l : Loc)
    (h : ∀ yx ∈ L, l ≠ kernel_cell p yx) :
    ∀ A : Loc → Nat, L.foldl (lay_scent_at c p) A l = A l := by
  induction L with
  | nil => intro A; rfl
  | cons a L ih =>
    intro A
    rw [List.foldl_cons, ih (fun yx hm => h yx (List.mem_cons_of_mem a hm))]
    exact lay_scent_at_frame c p A a l (h a (List.mem_cons_self a L))

/-- The kernel scan visits 25 pairwise distinct entries. -/
theorem kernel_indices_nodup : kernel_indices.Nodup := by decide

/-- Splitting the kernel scan at entry `n`. -/
theorem kernel_indices_decomp (n : Nat) (hn : n < 25) :
    kernel_indices =
      kernel_indices.take n ++
        kernel_indices.getD n (0, 0) :: kernel_indices.drop (n + 1) := by
  have hn' : n < kernel_indices.length := by
    have : kernel_indices.length = 25 := by decide
    omega
  rw [List.getD_eq_getElem _ _ hn', ← List.drop_eq_getElem_cons hn',
    List.take_append_drop]

/-- Entries visited before entry `n` differ from it. -/
theorem kernel_take_ne (n : Nat) (hn : n < 25) :
    ∀ yx ∈ kernel_indices.take n, yx ≠ kernel_indices.getD n (0, 0) := by
  intro yx hm
  have hd := kernel_indices_decomp n hn
  have hnd : (kernel_indices.take n ++
      kernel_indices.getD n (0, 0) :: kernel_indices.drop (n + 1)).Nodup := by
    rw [← hd]; exact kernel_indices_nodup
  have hdisj := List.disjoint_of_nodup_append hnd
  intro he
  exact hdisj hm (he ▸ List.mem_cons_self _ _)

/-- Entries visited after entry `n` differ from it. -/
theorem kernel_drop_ne (n : Nat) (hn : n < 25) :
    ∀ yx ∈ kernel_indices.drop (n + 1), yx ≠ kernel_indices.getD n (0, 0) := by
  intro yx hm
  have hd := kernel_indices_decomp n hn
  have hnd : (kernel_indices.take n ++
      kernel_indices.getD n (0, 0) :: kernel_indices.drop (n + 1)).Nodup := by
    rw [← hd]; exact kernel_indices_nodup
  have hcons := (List.nodup_append.mp hnd).2.1
  intro he
  exact (List.nodup_cons.mp hcons).1 (he ▸ hm)

/-- The final value of the cell written by kernel entry `n`: its kernel
freshness value when the `add_scent` test passed against the state the
scan had built up before entry `n`, and its previous (aged) value
otherwise. -/
theorem lay_down_value (c : Cave) (p : Loc) (A : Loc → Nat) (n : Nat) (hn : n < 25) :
    kernel_indices.foldl (lay_scent_at c p) A
        (kernel_cell p (kernel_indices.getD n (0, 0))) =
      if scent_cond c p (lay_steps c p A n) (kernel_indices.getD n (0, 0)) = true
      then kernel_val (kernel_indices.getD n (0, 0))
      else A (kernel_cell p (kernel_indices.getD n (0, 0))) := by
  have htake : ∀ ab ∈ kernel_indices.take n,
      kernel_cell p (kernel_indices.getD n (0, 0)) ≠ kernel_cell p ab := by
    intro ab hm heq
    exact (kernel_take_ne n hn ab hm) (kernel_cell_injective p ab _ heq.symm)
  have hdrop : ∀ ab ∈ kernel_indices.drop (n + 1),
      kernel_cell p (kernel_indices.getD n (0, 0)) ≠ kernel_cell p ab := by
    intro ab hm heq
    exact (kernel_drop_ne n hn ab hm) (kernel_cell_injective p ab _ heq.symm)
  have hfold : List.foldl (lay_scent_at c p) A kernel_indices =
      List.foldl (lay_scent_at c p) A
        (kernel_indices.take n ++
          kernel_indices.getD n (0, 0) :: kernel_indices.drop (n + 1)) := by
    conv_lhs => rw [kernel_indices_decomp n hn]
  rw [hfold, List.foldl_append, List.foldl_cons,
    foldl_lay_frame c p _ _ hdrop, lay_scent_at_eq]
  have hsteps : (kernel_indices.take n).foldl (lay_scent_at c p) A =
      lay_steps c p A n := rfl
  rw [hsteps]
  split
  · exact Function.update_same _ _ _
  · exact foldl_lay_frame c p _ _ htake _

/-- The validity test on kernel entry `yx` as the specification states
it (transcribed from the claim, to be compared with the source's
`add_scent` computation): the cell is in bounds, its terrain allows
scent, and either it is the player's own kernel entry or some in-bounds
neighbour holds exactly one less than the value being written. -/
def spec_scent_write_test (c : Cave) (p : Loc) (B : Loc → Nat) (yx : Nat × Nat) : Prop :=
  square_in_bounds c (kernel_cell p yx) = true ∧
  c.noscent (kernel_cell p yx) = false ∧
  (yx = (2, 2) ∨
    ∃ d ∈ ddgrid_ddd, square_in_bounds c (loc_sum (kernel_cell p yx) d) = true ∧
      (B (loc_sum (kernel_cell p yx) d) : Int) = (kernel_val yx : Int) - 1)

/-- The source's `add_scent` test implies the specification's test. -/
theorem scent_cond_implies_spec_test (c : Cave) (p : Loc) (B : Loc → Nat)
    (yx : Nat × Nat) (h : scent_cond c p B yx = true) :
    spec_scent_write_test c p B yx := by
  unfold scent_cond at h
  rw [Bool.and_eq_true, Bool.and_eq_true] at h
  obtain ⟨⟨hb, hs⟩, hany⟩ := h
  rw [List.any_eq_true] at hany
  obtain ⟨d, hd, hcond⟩ := hany
  rw [Bool.and_eq_true] at hcond
  obtain ⟨hadj, hor⟩ := hcond
  refine ⟨hb, by simpa using hs, ?_⟩
  rw [Bool.or_eq_true] at hor
  rcases hor with hcen | hval
  · left
    rw [Bool.and_eq_true, decide_eq_true_eq, decide_eq_true_eq] at hcen
    exact Prod.ext hcen.2 hcen.1
  · right
    exact ⟨d, hd, hadj, by simpa using hval⟩

/-! ## Claim theorems: scent kernel write condition -/

/-- C4: during the lay-down phase, the cell of kernel entry `n` ends up
holding its kernel freshness value (rather than its aged value) only if
it is in bounds, its terrain allows scent, and either it is the player's
own cell or some in-bounds neighbour held exactly one less than the
value being written at the moment entry `n` was processed (fresh values
written by earlier entries of the same pass included); and every kernel
entry failing that test keeps its aged value. -/
theorem scent_kernel_write_condition (c : Cave) (p : Loc) (G : Loc → Nat)
    (n : Nat) (hn : n < 25) :
    (update_scent c p false G (kernel_cell p (kernel_indices.getD n (0, 0))) ≠
        scent_age c G (kernel_cell p (kernel_indices.getD n (0, 0))) →
      update_scent c p false G (kernel_cell p (kernel_indices.getD n (0, 0))) =
          kernel_val (kernel_indices.getD n (0, 0)) ∧
        spec_scent_write_test c p (lay_steps c p (scent_age c G) n)
          (kernel_indices.getD n (0, 0))) ∧
    (¬ spec_scent_write_test c p (lay_steps c p (scent_age c G) n)
        (kernel_indices.getD n (0, 0)) →
      update_scent c p false G (kernel_cell p (kernel_indices.getD n (0, 0))) =
        scent_age c G (kernel_cell p (kernel_indices.getD n (0, 0)))) := by
  have hu : update_scent c p false G =
      kernel_indices.foldl (lay_scent_at c p) (scent_age c G) := rfl
  have hv := lay_down_value c p (scent_age c G) n hn
  constructor
  · intro hne
    rw [hu] at hne ⊢
    rw [hv] at hne ⊢
    by_cases hc : scent_cond c p (lay_steps c p (scent_age c G) n)
        (kernel_indices.getD n (0, 0)) = true
    · rw [if_pos hc]
      exact ⟨rfl, scent_cond_implies_spec_test c p _ _ hc⟩
    · rw [if_neg hc] at hne
      exact absurd rfl hne
  · intro hnt
    rw [hu, hv]
    by_cases hc : scent_cond c p (lay_steps c p (scent_age c G) n)
        (kernel_indices.getD n (0, 0)) = true
    · exact absurd (scent_cond_implies_spec_test c p _ _ hc) hnt
    · rw [if_neg hc]

/-- Witness for C4 on `test_cave`: with the player at the centre of an
all-floor level and no previous scent, kernel entry 11 (the cell just
west of the player, freshness 1) is freshly written and satisfies the
specification's test. -/
theorem scent_kernel_write_condition_witness :
    update_scent test_cave ⟨2, 2⟩ false (fun _ => 0)
        (kernel_cell ⟨2, 2⟩ (kernel_indices.getD 11 (0, 0))) =
      kernel_val (kernel_indices.getD 11 (0, 0)) ∧
    spec_scent_write_test test_cave ⟨2, 2⟩
      (lay_steps test_cave ⟨2, 2⟩ (scent_age test_cave (fun _ => 0)) 11)
      (kernel_indices.getD 11 (0, 0)) :=
  (scent_kernel_write_condition test_cave ⟨2, 2⟩ (fun _ => 0) 11
    (by decide)).1 (by decide)

/-! ## Scent lay-down: overwrite semantics and connectivity -/

/-- Two cells are adjacent when one is the other plus one of the eight
neighbour offsets. -/
def grid_adjacent (a b : Loc) : Prop := ∃ d ∈ ddgrid_ddd, b = loc_sum a d

/-- The neighbour offsets are closed under negation, so adjacency is
symmetric. -/
theorem grid_adjacent_symm (a b : Loc) (h : grid_adjacent a b) :
    grid_adjacent b a := by
  obtain ⟨d, hd, rfl⟩ := h
  refine ⟨⟨-d.y, -d.x⟩, ?_, ?_⟩
  · fin_cases hd <;> decide
  · cases a
    simp [loc_sum]

/-- A cell is scent-connected to the player within two steps: it is the
player's cell, a scent-carrying cell adjacent to it, or a scent-carrying
cell adjacent to a scent-carrying cell adjacent to it. -/
def scent_connected2 (c : Cave) (p l : Loc) : Prop :=
  l = p ∨ (grid_adjacent p l ∧ c.noscent l = false) ∨
  ∃ m, grid_adjacent p m ∧ c.noscent m = false ∧
    grid_adjacent m l ∧ c.noscent l = false

/-- A kernel cell, expressed as the player's cell plus an offset. -/
theorem kernel_cell_eq_sum (p : Loc) (yx : Nat × Nat) :
    kernel_cell p yx = loc_sum p ⟨(yx.1 : Int) - 2, (yx.2 : Int) - 2⟩ := by
  unfold kernel_cell loc_sum
  congr 1 <;> ring

/-- The freshness-1 ring of the kernel consists of neighbour offsets. -/
theorem kernel_ring1_mem : ∀ yx ∈ kernel_indices, kernel_val yx = 1 →
    (⟨(yx.1 : Int) - 2, (yx.2 : Int) - 2⟩ : Loc) ∈ ddgrid_ddd := by decide

/-- A kernel entry of freshness 1 writes a cell adjacent to the
player. -/
theorem kernel_ring1_adjacent (p : Loc) (yx : Nat × Nat)
    (hyx : yx ∈ kernel_indices) (h1 : kernel_val yx = 1) :
    grid_adjacent p (kernel_cell p yx) :=
  ⟨_, kernel_ring1_mem yx hyx h1, kernel_cell_eq_sum p yx⟩

/-- Only the centre entry has freshness 0. -/
theorem kernel_val_zero : ∀ yx ∈ kernel_indices, kernel_val yx = 0 → yx = (2, 2) := by
  decide

/-- The centre entry writes the player's own cell. -/
theorem kernel_cell_center (p : Loc) : kernel_cell p (2, 2) = p := by
  unfold kernel_cell
  cases p
  simp

/-- Kernel freshness values are 0, 1 or 2. -/
theorem kernel_val_cases : ∀ yx ∈ kernel_indices,
    kernel_val yx = 0 ∨ kernel_val yx = 1 ∨ kernel_val yx = 2 := by decide

/-- The invariant maintained along the lay-down scan: any in-bounds cell
holding the value 1 is a scent-carrying cell adjacent to the player (no
such cell exists after aging, so value-1 cells are fresh ring-1 writes),
and any cell differing from the aged grid is scent-connected to the
player within two steps. -/
def lay_inv (c : Cave) (p : Loc) (A B : Loc → Nat) : Prop :=
  (∀ l, square_in_bounds c l = true → B l = 1 →
    grid_adjacent p l ∧ c.noscent l = false) ∧
  (∀ l, B l ≠ A l → scent_connected2 c p l)

/-- One kernel step preserves the lay-down invariant. -/
theorem lay_inv_step (c : Cave) (p : Loc) (A : Loc → Nat) (yx : Nat × Nat)
    (hyx : yx ∈ kernel_indices) (B : Loc → Nat) (h : lay_inv c p A B) :
    lay_inv c p A (lay_scent_at c p B yx) := by
  rw [lay_scent_at_eq]
  by_cases hc : scent_cond c p B yx = true
  · rw [if_pos hc]
    obtain ⟨hb, hs, hor⟩ := scent_cond_implies_spec_test c p B yx hc
    constructor
    · intro l hlb hl1
      by_cases hle : l = kernel_cell p yx
      · subst hle
        rw [Function.update_same] at hl1
        exact ⟨kernel_ring1_adjacent p yx hyx hl1, hs⟩
      · rw [Function.update_noteq hle] at hl1
        exact h.1 l hlb hl1
    · intro l hlA
      by_cases hle : l = kernel_cell p yx
      · subst hle
        rcases kernel_val_cases yx hyx with h0 | h1 | h2
        · left
          rw [kernel_val_zero yx hyx h0, kernel_cell_center]
        · right; left
          exact ⟨kernel_ring1_adjacent p yx hyx h1, hs⟩
        · right; right
          rcases hor with hcen | ⟨d, hd, hadj, hval⟩
          · exfalso
            rw [hcen] at h2
            exact absurd h2 (by decide)
          · rw [h2] at hval
            have hB1 : B (loc_sum (kernel_cell p yx) d) = 1 := by
              omega
            obtain ⟨hpm, hms⟩ := h.1 _ hadj hB1
            exact ⟨loc_sum (kernel_cell p yx) d, hpm, hms,
              grid_adjacent_symm _ _ ⟨d, hd, rfl⟩, hs⟩
      · rw [Function.update_noteq hle] at hlA
        exact h.2 l hlA
  · rw [if_neg hc]
    exact h

/-- The lay-down invariant is preserved by any sequence of kernel
steps. -/
theorem lay_inv_fold (c : Cave) (p : Loc) (A : Loc → Nat) (L : List (Nat × Nat))
    (hL : ∀ yx ∈ L, yx ∈ kernel_indices) :
    ∀ B, lay_inv c p A B → lay_inv c p A (L.foldl (lay_scent_at c p) B) := by
  induction L with
  | nil => exact fun B h => h
  | cons a L ih =>
    intro B h
    rw [List.foldl_cons]
    exact ih (fun yx hm => hL yx (List.mem_cons_of_mem a hm)) _
      (lay_inv_step c p A a (hL a (List.mem_cons_self a L)) B h)

/-- After aging (given scentless borders), no in-bounds cell holds the
value 1. -/
theorem scent_age_ne_one (c : Cave) (G : Loc → Nat)
    (hborder : ∀ l, square_in_bounds c l = true →
      square_in_bounds_fully c l = false → G l = 0) :
    ∀ l, square_in_bounds c l = true → scent_age c G l ≠ 1 := by
  intro l hb
  unfold scent_age
  by_cases hf : square_in_bounds_fully c l = true
  · by_cases hg : 0 < G l
    · rw [if_pos ⟨hf, hg⟩]
      omega
    · rw [if_neg (by tauto)]
      omega
  · rw [if_neg (by tauto)]
    have := hborder l hb (by simpa using hf)
    omega

/-- The freshness value of any of the 25 kernel entries is at most 2. -/
theorem kernel_getD_val_le : ∀ n : Fin 25,
    kernel_val (kernel_indices.getD n.val (0, 0)) ≤ 2 := by decide

/-- Every kernel entry of the scan is a member of the scan list. -/
theorem kernel_getD_mem : ∀ n : Fin 25,
    kernel_indices.getD n.val (0, 0) ∈ kernel_indices := by decide

/-! ## Claim theorems: scent lay-down semantics (C5) -/

/-- A wider all-floor test level for the two-round scent
counterexample. -/
def cex_cave : Cave :=
  { height := 8, width := 9,
    noflow := fun l => decide (¬ (1 ≤ l.x ∧ l.x < 8 ∧ 1 ≤ l.y ∧ l.y < 7)),
    noscent := fun l => decide (¬ (1 ≤ l.x ∧ l.x < 8 ∧ 1 ≤ l.y ∧ l.y < 7)) }

/-- The scent grid after a previous round's update with the player at
(3,2) on a fresh level: in particular the player's cell was scented
(freshness 0). -/
def cex_scent_prev : Loc → Nat := update_scent cex_cave ⟨3, 2⟩ false (fun _ => 0)

/-- Counterexample to C5 as stated: after the player moves two squares
east, the next update writes freshness 2 over the previously scented
cell (3,2), whose aged value is 0 — the final value is the freshly
written value, not the minimum of the aged value and the fresh value,
and laying fresh scent increased this previously scented cell's stored
age. -/
theorem scent_min_counterexample :
    cex_scent_prev ⟨3, 2⟩ = 0 ∧
    scent_age cex_cave cex_scent_prev ⟨3, 2⟩ = 0 ∧
    update_scent cex_cave ⟨3, 4⟩ false cex_scent_prev ⟨3, 2⟩ = 2 ∧
    update_scent cex_cave ⟨3, 4⟩ false cex_scent_prev ⟨3, 2⟩ ≠
      min (scent_age cex_cave cex_scent_prev ⟨3, 2⟩) 2 := by decide

/-- C5 amended: a freshly written kernel cell holds exactly its kernel
freshness value — which overwrites (and for cells whose aged value is 0,
may exceed) the aged value — while every other cell keeps its aged
value; lay-down never increases the value of an interior cell that was
positively scented before the update; and (given scentless borders) no
cell that is not scent-connected to the player within two steps ever
receives a fresh value. -/
theorem scent_lay_down_overwrite (c : Cave) (p : Loc) (G : Loc → Nat)
    (hborder : ∀ l, square_in_bounds c l = true →
      square_in_bounds_fully c l = false → G l = 0) :
    (∀ l, update_scent c p false G l = scent_age c G l ∨
      ∃ n : Nat, ∃ hn : n < 25,
        l = kernel_cell p (kernel_indices.getD n (0, 0)) ∧
        update_scent c p false G l = kernel_val (kernel_indices.getD n (0, 0))) ∧
    (∀ l, square_in_bounds_fully c l = true → 0 < G l →
      update_scent c p false G l ≤ scent_age c G l) ∧
    (∀ l, update_scent c p false G l ≠ scent_age c G l →
      scent_connected2 c p l) := by
  have hu : update_scent c p false G =
      kernel_indices.foldl (lay_scent_at c p) (scent_age c G) := rfl
  have hwritten : ∀ l, update_scent c p false G l = scent_age c G l ∨
      ∃ n : Nat, ∃ hn : n < 25,
        l = kernel_cell p (kernel_indices.getD n (0, 0)) ∧
        update_scent c p false G l = kernel_val (kernel_indices.getD n (0, 0)) := by
    intro l
    by_cases hk : ∃ yx ∈ kernel_indices, l = kernel_cell p yx
    · obtain ⟨yx, hyx, rfl⟩ := hk
      obtain ⟨n, hn, hget⟩ := List.mem_iff_getElem.mp hyx
      have hn25 : n < 25 := by
        have : kernel_indices.length = 25 := by decide
        omega
      have hgetD : kernel_indices.getD n (0, 0) = yx := by
        rw [List.getD_eq_getElem _ _ hn, hget]
      have hval := lay_down_value c p (scent_age c G) n hn25
      rw [hgetD] at hval
      by_cases hc : scent_cond c p (lay_steps c p (scent_age c G) n) yx = true
      · right
        refine ⟨n, hn25, by rw [hgetD], ?_⟩
        rw [hgetD, hu, hval, if_pos hc]
      · left
        rw [hu, hval, if_neg hc]
    · push_neg at hk
      left
      rw [hu]
      exact foldl_lay_frame c p kernel_indices l hk _
  refine ⟨hwritten, ?_, ?_⟩
  · intro l hf hg
    rcases hwritten l with he | ⟨n, hn, rfl, he⟩
    · exact le_of_eq he
    · rw [he]
      have h2 : kernel_val (kernel_indices.getD n (0, 0)) ≤ 2 :=
        kernel_getD_val_le ⟨n, hn⟩
      have hA : scent_age c G (kernel_cell p (kernel_indices.getD n (0, 0))) =
          G (kernel_cell p (kernel_indices.getD n (0, 0))) + 1 := by
        unfold scent_age
        rw [if_pos ⟨hf, hg⟩]
      omega
  · have hinit : lay_inv c p (scent_age c G) (scent_age c G) := by
      constructor
      · intro l hlb hl1
        exact absurd hl1 (scent_age_ne_one c G hborder l hlb)
      · intro l hlA
        exact absurd rfl hlA
    have := (lay_inv_fold c p (scent_age c G) kernel_indices
      (fun _ h => h) (scent_age c G) hinit).2
    intro l hne
    rw [hu] at hne
    exact this l hne

/-- Witness for C5 (amended) on `test_cave`: the cell west of the
player is freshly written in the lay-down pass, and the theorem shows it
is scent-connected to the player within two steps. -/
theorem scent_lay_down_overwrite_witness :
    scent_connected2 test_cave ⟨2, 2⟩ ⟨2, 1⟩ :=
  (scent_lay_down_overwrite test_cave ⟨2, 2⟩ (fun _ => 0)
    (fun _ _ _ => rfl)).2.2 ⟨2, 1⟩ (by decide)

/-! ## The world tick processor (`process_world`)

`process_world` is transcribed step for step.  Collaborator functions
from other translation units are abstracted: `take_hit` and
`player_over_exert` (player-util.c) by a hit-point/death model,
`player_apply_damage_reduction` by a function parameter `dr`,
`decrease_timeouts`'s per-condition policies by a function parameter
returning the new timed values (the food clock is excluded by
construction, as the source's `TMD_FOOD` case sets its decrement to 0),
the random rolls (`one_in_` etc.) by boolean inputs, and side effects
that live entirely in external subsystems (messages, redraw flags,
regeneration amounts, object and trap bookkeeping) by emitted events.
Every step of the source appears, in order, as an event in the returned
log. -/

/-- Configuration constants (`z_info` fields and the food thresholds of
player.h). -/
structure Config where
  day_length : Nat
  store_turns : Nat
  move_energy : Nat
  food_value : Nat
  py_food_starve : Nat
  py_food_hungry : Nat
deriving Repr

/-- The severity grade of the `TMD_CUT` condition, as tested by
`player_timed_grade_eq`. -/
inductive CutGrade where
  | mortalWound
  | deepGash
  | severeCut
  | other
deriving DecidableEq, Repr

/-- The player and world state read and written by `process_world`. -/
structure PState where
  depth : Nat
  daycount : Nat
  chp : Int
  mhp : Int
  is_dead : Bool
  exp : Nat
  poisoned : Nat
  cut : Nat
  bloodlust : Nat
  heal : Nat
  food : Nat
  paralyzed : Nat
  blackbreath : Nat
  word_recall : Nat
  deep_descent : Nat
  recall_depth : Nat
  arena_level : Bool
  rock : Bool
  regen : Bool
  slow_digest : Bool
  drain_exp : Bool
  resting : Bool
  speed : Nat
  cut_grade : CutGrade
  food_full : Bool
  food_faint : Bool
  food_starving : Bool
deriving DecidableEq, Repr

/-- The outcomes of the random rolls and external queries made during
one tick. -/
structure Rolls where
  compact1 : Bool
  compact2 : Bool
  spawn : Bool
  bb_con : Bool
  bb_str : Bool
  bb_life : Bool
  faint : Bool
  faint_dur : Nat
  drain : Bool
  exert_kills : Bool
  descent_target : Nat
deriving DecidableEq, Repr

/-- New values for the timed conditions adjusted by
`decrease_timeouts` (the food clock is never among them). -/
structure TimedOut where
  poisoned : Nat
  cut : Nat
  bloodlust : Nat
  heal : Nat
  paralyzed : Nat
  blackbreath : Nat
deriving DecidableEq, Repr

/-- The observable steps of one world tick, in execution order. -/
inductive WEvent where
  | compactMonsters
  | ambientSound
  | illuminate (dawn : Bool)
  | dayCountInc
  | spawnMonster
  | poisonDamage (amount : Nat)
  | cutDamage (amount : Nat)
  | overExert
  | healHp
  | blackBreath
  | digestFood (amount : Nat)
  | fastMetabolism (amount : Nat)
  | gorgedDigest (amount : Nat)
  | faintFromHunger
  | starveDamage (amount : Nat)
  | regenHp
  | regenMana
  | decreaseTimeouts
  | updateLight
  | noiseAndScent
  | drainExp
  | rechargeObjects
  | learnAfterTime
  | trapDecay
  | recallCountdown
  | recallActivate
  | descentCountdown
  | descentActivate
  | destruction
deriving DecidableEq, Repr

/-- Modelled from the spec: `take_hit` (player-util.c, not under src/)
reduces the player's hit points by the (already reduction-adjusted)
damage and reports death once they fall below zero. -/
def take_hit (dmg : Nat) (s : PState) : PState :=
  let chp := s.chp - dmg
  { s with chp := chp, is_dead := s.is_dead || decide (chp < 0) }

/-- Modelled from the spec: `player_over_exert` (player-util.c, not
under src/) applies the draining/exertion condition's stat and health
loss, which may kill the player; whether it does is an input. -/
def player_over_exert (kills : Bool) (s : PState) : PState :=
  if kills then { s with is_dead := true } else s

/-- Modelled from the spec: the external `decrement(condition, amount)`
contract of the condition service (`player_dec_timed` on the food
clock) — remove the amount, stopping at zero. -/
def dec_food (amount : Nat) (s : PState) : PState :=
  { s with food := s.food - amount }

/-- The calendar and population part of `process_world` (compaction,
ambient sound, sunshine or the day counter, monster generation); no
step here can kill the player. -/
def pw_calendar (cfg : Config) (r : Rolls) (turn : Int) (s : PState) :
    PState × List WEvent :=
  let ev0 := (if r.compact1 then [WEvent.compactMonsters] else []) ++
    (if r.compact2 then [WEvent.compactMonsters] else [])
  let ev1 := ev0 ++
    (if turn % ((10 * (cfg.day_length : Int)) / 4) = 0
     then [WEvent.ambientSound] else [])
  let cal :=
    if s.depth = 0 then
      (s, if turn % ((10 * (cfg.day_length : Int)) / 2) = 0
          then [WEvent.illuminate (decide (turn % (10 * (cfg.day_length : Int)) = 0))]
          else [])
    else
      if turn % (10 * (cfg.store_turns : Int)) = 0
      then ({ s with daycount := s.daycount + 1 }, [WEvent.dayCountInc])
      else (s, [])
  (cal.1, ev1 ++ cal.2 ++ (if r.spawn then [WEvent.spawnMonster] else []))

/-- The poison hazard: fires when `TMD_POISONED` is active; the third
component records whether the source's early `return` is taken. -/
def hazard_poison (dr : Nat → Nat) (s : PState) : PState × List WEvent × Bool :=
  if s.poisoned ≠ 0 then
    let s' := take_hit (dr 1) s
    (s', [WEvent.poisonDamage (dr 1)], s'.is_dead)
  else (s, [], false)

/-- The cut damage hazard, severity-graded exactly as the source. -/
def hazard_cut (dr : Nat → Nat) (s : PState) : PState × List WEvent × Bool :=
  if s.cut ≠ 0 then
    let i : Nat :=
      if s.rock then 0
      else match s.cut_grade with
        | CutGrade.mortalWound => 3
        | CutGrade.deepGash => 3
        | CutGrade.severeCut => 2
        | CutGrade.other => 1
    let s' := take_hit (dr i) s
    (s', [WEvent.cutDamage (dr i)], s'.is_dead)
  else (s, [], false)

/-- The diminishing-bloodlust exertion hazard. -/
def hazard_bloodlust (r : Rolls) (s : PState) : PState × List WEvent × Bool :=
  if s.bloodlust ≠ 0 then
    let s' := player_over_exert r.exert_kills s
    (s', [WEvent.overExert], s'.is_dead)
  else (s, [], false)

/-- The digestion block of `process_world`: normal digestion only on
turns divisible by 100, fast metabolism under `TMD_HEAL`, and the
gorged fast fixed rate every tick. -/
def pw_digest (cfg : Config) (turn : Int) (s : PState) : PState × List WEvent :=
  if ¬ s.food_full then
    let step1 :=
      if turn % 100 = 0 then
        let i1 := turn_energy cfg.move_energy s.speed
        let i2 := i1 * 100 / cfg.food_value
        let i3 := if s.regen then i2 * 2 else i2
        let i4 := if s.slow_digest then i3 / 2 else i3
        let i5 := if i4 < 1 then 1 else i4
        (dec_food i5 s, [WEvent.digestFood i5])
      else (s, [])
    if step1.1.heal ≠ 0 then
      let s2 := dec_food (8 * cfg.food_value) step1.1
      let s3 := if s2.food < cfg.py_food_hungry then { s2 with heal := 0 } else s2
      (s3, step1.2 ++ [WEvent.fastMetabolism (8 * cfg.food_value)])
    else step1
  else
    (dec_food (5000 / cfg.food_value) s, [WEvent.gorgedDigest (5000 / cfg.food_value)])

/-- The faint-or-starving block; the third component records whether the
starvation early `return` is taken. -/
def pw_starve (cfg : Config) (dr : Nat → Nat) (r : Rolls) (s : PState) :
    PState × List WEvent × Bool :=
  if s.food_faint then
    if s.paralyzed = 0 ∧ r.faint then
      ({ s with paralyzed := s.paralyzed + 1 + r.faint_dur },
        [WEvent.faintFromHunger], false)
    else (s, [], false)
  else if s.food_starving then
    let i := (cfg.py_food_starve - s.food) / 10
    let s' := take_hit (dr i) s
    (s', [WEvent.starveDamage (dr i)], s'.is_dead)
  else (s, [], false)

/-- The tail of `process_world` after the starvation check: passive
regeneration, `decrease_timeouts`, light, noise and scent, inventory
effects, traps, and the recall and deep-descent countdowns. -/
def pw_tail (dt : PState → TimedOut) (r : Rolls) (turn : Int) (s : PState) :
    PState × List WEvent :=
  let ev0 := (if s.chp < s.mhp then [WEvent.regenHp] else []) ++ [WEvent.regenMana]
  let t := dt s
  let s1 := { s with
    poisoned := t.poisoned,
    cut := t.cut,
    bloodlust := t.bloodlust,
    heal := t.heal,
    paralyzed := t.paralyzed,
    blackbreath := t.blackbreath }
  let ev1 := ev0 ++ [WEvent.decreaseTimeouts, WEvent.updateLight] ++
    (if ¬ s1.resting then [WEvent.noiseAndScent] else []) ++
    (if s1.drain_exp then
      (if s1.exp > 0 ∧ r.drain then [WEvent.drainExp] else [])
     else []) ++
    [WEvent.rechargeObjects] ++
    (if turn % 100 = 0 then [WEvent.learnAfterTime] else []) ++
    [WEvent.trapDecay]
  let rec1 :=
    if s1.word_recall ≠ 0 ∧ ¬ s1.arena_level then
      let wr := s1.word_recall - 1
      let s2 := { s1 with word_recall := wr }
      if wr = 0 then
        (if s2.depth ≠ 0
         then ({ s2 with depth := 0 },
           [WEvent.recallCountdown, WEvent.recallActivate])
         else ({ s2 with depth := s2.recall_depth },
           [WEvent.recallCountdown, WEvent.recallActivate]))
      else (s2, [WEvent.recallCountdown])
    else (s1, [])
  let s3 := rec1.1
  let des :=
    if s3.deep_descent ≠ 0 then
      let dd := s3.deep_descent - 1
      let s4 := { s3 with deep_descent := dd }
      if dd = 0 then
        (if r.descent_target > s4.depth
         then ({ s4 with depth := r.descent_target },
           [WEvent.descentCountdown, WEvent.descentActivate])
         else (s4, [WEvent.descentCountdown, WEvent.destruction]))
      else (s4, [WEvent.descentCountdown])
    else (s3, [])
  (des.1, ev1 ++ rec1.2 ++ des.2)

/-- `process_world` from `game-world.c`: one world tick over the active
level, with the source's early returns on a hazard death. -/
def process_world (cfg : Config) (dr : Nat → Nat) (dt : PState → TimedOut)
    (r : Rolls) (turn : Int) (s : PState) : PState × List WEvent :=
  let a := pw_calendar cfg r turn s
  let b := hazard_poison dr a.1
  if b.2.2 then (b.1, a.2 ++ b.2.1) else
  let c := hazard_cut dr b.1
  if c.2.2 then (c.1, a.2 ++ b.2.1 ++ c.2.1) else
  let d := hazard_bloodlust r c.1
  if d.2.2 then (d.1, a.2 ++ b.2.1 ++ c.2.1 ++ d.2.1) else
  let evHeal := if d.1.heal ≠ 0 then [WEvent.healHp] else []
  let evBB := if d.1.blackbreath ≠ 0 then
      (if r.bb_con then [WEvent.blackBreath] else []) ++
      (if r.bb_str then [WEvent.blackBreath] else []) ++
      (if r.bb_life then [WEvent.blackBreath] else [])
    else []
  let e := pw_digest cfg turn d.1
  let f := pw_starve cfg dr r e.1
  if f.2.2 then
    (f.1, a.2 ++ b.2.1 ++ c.2.1 ++ d.2.1 ++ evHeal ++ evBB ++ e.2 ++ f.2.1)
  else
  let g := pw_tail dt r turn f.1
  (g.1, a.2 ++ b.2.1 ++ c.2.1 ++ d.2.1 ++ evHeal ++ evBB ++ e.2 ++ f.2.1 ++ g.2)

/-! ## Helper lemmas about the tick phases -/

/-- Membership in a guarded event list. -/
theorem mem_ite_nil {c : Prop} [Decidable c] {l : List WEvent} {e : WEvent}
    (h : e ∈ if c then l else []) : e ∈ l := by
  split at h
  · exact h
  · cases h

/-- The calendar phase only emits calendar events. -/
theorem pw_calendar_events (cfg : Config) (r : Rolls) (turn : Int) (s : PState) :
    ∀ e ∈ (pw_calendar cfg r turn s).2,
      e = WEvent.compactMonsters ∨ e = WEvent.ambientSound ∨
      (∃ d, e = WEvent.illuminate d) ∨ e = WEvent.dayCountInc ∨
      e = WEvent.spawnMonster := by
  intro e he
  simp only [pw_calendar] at he
  rcases List.mem_append.mp he with h | h
  · rcases List.mem_append.mp h with h | h
    · rcases List.mem_append.mp h with h | h
      · rcases List.mem_append.mp h with h | h
        · exact Or.inl (List.mem_singleton.mp (mem_ite_nil h))
        · exact Or.inl (List.mem_singleton.mp (mem_ite_nil h))
      · exact Or.inr (Or.inl (List.mem_singleton.mp (mem_ite_nil h)))
    · by_cases hd : s.depth = 0
      · rw [if_pos hd] at h
        exact Or.inr (Or.inr (Or.inl ⟨_, List.mem_singleton.mp (mem_ite_nil h)⟩))
      · rw [if_neg hd] at h
        by_cases ht : turn % (10 * (cfg.store_turns : Int)) = 0
        · rw [if_pos ht] at h
          exact Or.inr (Or.inr (Or.inr (Or.inl (List.mem_singleton.mp h))))
        · rw [if_neg ht] at h
          cases h
  · exact Or.inr (Or.inr (Or.inr (Or.inr (List.mem_singleton.mp (mem_ite_nil h)))))

/-- The poison hazard only emits poison damage. -/
theorem hazard_poison_events (dr : Nat → Nat) (s : PState) :
    ∀ e ∈ (hazard_poison dr s).2.1, ∃ n, e = WEvent.poisonDamage n := by
  intro e he
  unfold hazard_poison at he
  split at he <;> simp at he
  exact ⟨_, he⟩

/-- The cut hazard only emits cut damage. -/
theorem hazard_cut_events (dr : Nat → Nat) (s : PState) :
    ∀ e ∈ (hazard_cut dr s).2.1, ∃ n, e = WEvent.cutDamage n := by
  intro e he
  unfold hazard_cut at he
  split at he <;> simp at he
  exact ⟨_, he⟩

/-- The bloodlust hazard only emits the exertion event. -/
theorem hazard_bloodlust_events (r : Rolls) (s : PState) :
    ∀ e ∈ (hazard_bloodlust r s).2.1, e = WEvent.overExert := by
  intro e he
  unfold hazard_bloodlust at he
  split at he <;> simp at he
  exact he

/-- The digestion block only emits digestion events. -/
theorem pw_digest_events (cfg : Config) (turn : Int) (s : PState) :
    ∀ e ∈ (pw_digest cfg turn s).2,
      (∃ n, e = WEvent.digestFood n) ∨ (∃ n, e = WEvent.fastMetabolism n) ∨
      (∃ n, e = WEvent.gorgedDigest n) := by
  intro e he
  simp only [pw_digest, dec_food] at he
  split_ifs at he <;> simp at he <;> aesop

/-- The faint-or-starve block only emits its two events. -/
theorem pw_starve_events (cfg : Config) (dr : Nat → Nat) (r : Rolls) (s : PState) :
    ∀ e ∈ (pw_starve cfg dr r s).2.1,
      e = WEvent.faintFromHunger ∨ ∃ n, e = WEvent.starveDamage n := by
  intro e he
  unfold pw_starve at he
  split_ifs at he <;> simp at he
  · exact Or.inl he
  · exact Or.inr ⟨_, he⟩

/-- When the starvation early return fires, its log carries the
starvation damage event. -/
theorem pw_starve_died_log (cfg : Config) (dr : Nat → Nat) (r : Rolls) (s : PState)
    (h : (pw_starve cfg dr r s).2.2 = true) :
    ∃ n, WEvent.starveDamage n ∈ (pw_starve cfg dr r s).2.1 := by
  unfold pw_starve at h ⊢
  split_ifs at h ⊢ <;> simp_all

/-- The calendar phase touches no player field other than the day
counter. -/
theorem pw_calendar_state (cfg : Config) (r : Rolls) (turn : Int) (s : PState) :
    (pw_calendar cfg r turn s).1 = s ∨
      (pw_calendar cfg r turn s).1 = { s with daycount := s.daycount + 1 } := by
  unfold pw_calendar
  split_ifs <;> simp

/-- Death flags after each hazard, in terms of the early-return flag. -/
theorem hazard_poison_alive (dr : Nat → Nat) (s : PState)
    (h0 : s.is_dead = false) (h : (hazard_poison dr s).2.2 = false) :
    (hazard_poison dr s).1.is_dead = false := by
  unfold hazard_poison at h ⊢
  split_ifs at h ⊢ <;> simp_all

theorem hazard_cut_alive (dr : Nat → Nat) (s : PState)
    (h0 : s.is_dead = false) (h : (hazard_cut dr s).2.2 = false) :
    (hazard_cut dr s).1.is_dead = false := by
  unfold hazard_cut at h ⊢
  split_ifs at h ⊢ <;> simp_all

theorem hazard_bloodlust_alive (r : Rolls) (s : PState)
    (h0 : s.is_dead = false) (h : (hazard_bloodlust r s).2.2 = false) :
    (hazard_bloodlust r s).1.is_dead = false := by
  unfold hazard_bloodlust at h ⊢
  split_ifs at h ⊢ <;> simp_all

theorem pw_digest_is_dead (cfg : Config) (turn : Int) (s : PState) :
    (pw_digest cfg turn s).1.is_dead = s.is_dead := by
  simp only [pw_digest, dec_food]
  split_ifs <;> rfl

theorem pw_starve_alive (cfg : Config) (dr : Nat → Nat) (r : Rolls) (s : PState)
    (h0 : s.is_dead = false) (h : (pw_starve cfg dr r s).2.2 = false) :
    (pw_starve cfg dr r s).1.is_dead = false := by
  unfold pw_starve at h ⊢
  split_ifs at h ⊢ <;> simp_all [take_hit]

theorem pw_tail_is_dead (dt : PState → TimedOut) (r : Rolls) (turn : Int)
    (s : PState) : (pw_tail dt r turn s).1.is_dead = s.is_dead := by
  simp only [pw_tail]
  split_ifs <;> rfl

/-- Death flags when the early return does fire. -/
theorem hazard_poison_died (dr : Nat → Nat) (s : PState)
    (h : (hazard_poison dr s).2.2 = true) : (hazard_poison dr s).1.is_dead = true := by
  unfold hazard_poison at h ⊢
  split_ifs at h ⊢ <;> simp_all

theorem hazard_cut_died (dr : Nat → Nat) (s : PState)
    (h : (hazard_cut dr s).2.2 = true) : (hazard_cut dr s).1.is_dead = true := by
  unfold hazard_cut at h ⊢
  split_ifs at h ⊢ <;> simp_all

theorem hazard_bloodlust_died (r : Rolls) (s : PState)
    (h : (hazard_bloodlust r s).2.2 = true) :
    (hazard_bloodlust r s).1.is_dead = true := by
  unfold hazard_bloodlust at h ⊢
  split_ifs at h ⊢ <;> simp_all

theorem pw_starve_died (cfg : Config) (dr : Nat → Nat) (r : Rolls) (s : PState)
    (h : (pw_starve cfg dr r s).2.2 = true) :
    (pw_starve cfg dr r s).1.is_dead = true := by
  unfold pw_starve at h ⊢
  split_ifs at h ⊢ <;> simp_all

/-- Day-counter preservation through the post-calendar phases. -/
theorem hazard_poison_daycount (dr : Nat → Nat) (s : PState) :
    (hazard_poison dr s).1.daycount = s.daycount := by
  unfold hazard_poison take_hit
  split_ifs <;> rfl

theorem hazard_cut_daycount (dr : Nat → Nat) (s : PState) :
    (hazard_cut dr s).1.daycount = s.daycount := by
  unfold hazard_cut take_hit
  split_ifs <;> rfl

theorem hazard_bloodlust_daycount (r : Rolls) (s : PState) :
    (hazard_bloodlust r s).1.daycount = s.daycount := by
  unfold hazard_bloodlust player_over_exert
  split_ifs <;> rfl

theorem pw_digest_daycount (cfg : Config) (turn : Int) (s : PState) :
    (pw_digest cfg turn s).1.daycount = s.daycount := by
  simp only [pw_digest, dec_food]
  split_ifs <;> rfl

theorem pw_starve_daycount (cfg : Config) (dr : Nat → Nat) (r : Rolls) (s : PState) :
    (pw_starve cfg dr r s).1.daycount = s.daycount := by
  simp only [pw_starve, take_hit]
  split_ifs <;> rfl

theorem pw_tail_daycount (dt : PState → TimedOut) (r : Rolls) (turn : Int)
    (s : PState) : (pw_tail dt r turn s).1.daycount = s.daycount := by
  simp only [pw_tail]
  split_ifs <;> rfl

/-- The calendar phase increments the day counter exactly when the
player is underground on a store-update boundary. -/
theorem pw_calendar_daycount (cfg : Config) (r : Rolls) (turn : Int) (s : PState) :
    (pw_calendar cfg r turn s).1.daycount =
      if s.depth ≠ 0 ∧ turn % (10 * (cfg.store_turns : Int)) = 0
      then s.daycount + 1 else s.daycount := by
  unfold pw_calendar
  split_ifs <;> simp_all

theorem pw_calendar_is_dead (cfg : Config) (r : Rolls) (turn : Int) (s : PState) :
    (pw_calendar cfg r turn s).1.is_dead = s.is_dead := by
  rcases pw_calendar_state cfg r turn s with h | h <;> rw [h]

/-! ## Concrete tick inputs used by counterexamples and witnesses -/

/-- Plausible configuration values (`day_length` 10000, `store_turns`
1000, `move_energy` 100, `food_value` 100, starvation threshold 100,
hunger threshold 500). -/
def base_cfg : Config :=
  { day_length := 10000, store_turns := 1000, move_energy := 100,
    food_value := 100, py_food_starve := 100, py_food_hungry := 500 }

/-- All random rolls come up negative. -/
def base_rolls : Rolls :=
  { compact1 := false, compact2 := false, spawn := false, bb_con := false,
    bb_str := false, bb_life := false, faint := false, faint_dur := 0,
    drain := false, exert_kills := false, descent_target := 0 }

/-- A `decrease_timeouts` policy that leaves every condition in place
(its exact policies are external data). -/
def base_dt : PState → TimedOut :=
  fun s => ⟨s.poisoned, s.cut, s.bloodlust, s.heal, s.paralyzed, s.blackbreath⟩

/-- A healthy underground player at normal-ish speed. -/
def base_pstate : PState :=
  { depth := 1, daycount := 0, chp := 100, mhp := 100, is_dead := false,
    exp := 0, poisoned := 0, cut := 0, bloodlust := 0, heal := 0,
    food := 5000, paralyzed := 0, blackbreath := 0, word_recall := 0,
    deep_descent := 0, recall_depth := 0, arena_level := false,
    rock := false, regen := false, slow_digest := false, drain_exp := false,
    resting := false, speed := 110, cut_grade := CutGrade.other,
    food_full := false, food_faint := false, food_starving := false }

/-! ## Claim theorems: the day counter (C6) -/

/-- Counterexample to C6 as stated: at a store-update boundary the day
counter is left unchanged when the player is on the surface, and is
incremented when the player is underground — the opposite of the
claim. -/
theorem daycount_surface_counterexample :
    (10000 : Int) % (10 * ((base_cfg.store_turns : Nat) : Int)) = 0 ∧
    (process_world base_cfg (fun n => n) base_dt base_rolls 10000
      { base_pstate with depth := 0 }).1.daycount = base_pstate.daycount ∧
    (process_world base_cfg (fun n => n) base_dt base_rolls 10000
      base_pstate).1.daycount = base_pstate.daycount + 1 := by decide

/-- C6 amended: the day counter is incremented by one world tick
exactly when the player is underground and the turn count is a multiple
of the configured store-update period, and is never touched while the
player is on the surface. -/
theorem daycount_characterization (cfg : Config) (dr : Nat → Nat)
    (dt : PState → TimedOut) (r : Rolls) (turn : Int) (s : PState) :
    (process_world cfg dr dt r turn s).1.daycount =
      if s.depth ≠ 0 ∧ turn % (10 * (cfg.store_turns : Int)) = 0
      then s.daycount + 1 else s.daycount := by
  simp only [process_world]
  split_ifs <;>
    simp_all [hazard_poison_daycount, hazard_cut_daycount,
      hazard_bloodlust_daycount, pw_digest_daycount, pw_starve_daycount,
      pw_tail_daycount, pw_calendar_daycount]

/-! ## Claim theorems: hazard death aborts the tick (C3) -/

/-- The event kinds that can occur up to and including the
faint-or-starve block (everything before `pw_tail`). -/
def pre_tail_event (e : WEvent) : Prop :=
  e = WEvent.compactMonsters ∨ e = WEvent.ambientSound ∨
  (∃ d, e = WEvent.illuminate d) ∨ e = WEvent.dayCountInc ∨
  e = WEvent.spawnMonster ∨ (∃ n, e = WEvent.poisonDamage n) ∨
  (∃ n, e = WEvent.cutDamage n) ∨ e = WEvent.overExert ∨
  e = WEvent.healHp ∨ e = WEvent.blackBreath ∨
  (∃ n, e = WEvent.digestFood n) ∨ (∃ n, e = WEvent.fastMetabolism n) ∨
  (∃ n, e = WEvent.gorgedDigest n) ∨ e = WEvent.faintFromHunger ∨
  (∃ n, e = WEvent.starveDamage n)

/-- The event kinds that can occur strictly before the digestion
block. -/
def pre_digest_event (e : WEvent) : Prop :=
  e = WEvent.compactMonsters ∨ e = WEvent.ambientSound ∨
  (∃ d, e = WEvent.illuminate d) ∨ e = WEvent.dayCountInc ∨
  e = WEvent.spawnMonster ∨ (∃ n, e = WEvent.poisonDamage n) ∨
  (∃ n, e = WEvent.cutDamage n) ∨ e = WEvent.overExert

/-- Events in the guarded Black Breath log. -/
theorem mem_evBB {c0 c1 c2 c3 : Prop} [Decidable c0] [Decidable c1]
    [Decidable c2] [Decidable c3] {e : WEvent}
    (h : e ∈ if c0 then
      (if c1 then [WEvent.blackBreath] else []) ++
      (if c2 then [WEvent.blackBreath] else []) ++
      (if c3 then [WEvent.blackBreath] else [])
    else []) : e = WEvent.blackBreath := by
  have h' := mem_ite_nil h
  rcases List.mem_append.mp h' with h'' | h''
  · rcases List.mem_append.mp h'' with h3 | h3 <;>
      exact List.mem_singleton.mp (mem_ite_nil h3)
  · exact List.mem_singleton.mp (mem_ite_nil h'')

/-- If the player is alive on entry and dead when `process_world`
returns, the death happened at a hazard step, so only pre-tail events
were logged. -/
theorem process_world_death_log (cfg : Config) (dr : Nat → Nat)
    (dt : PState → TimedOut) (r : Rolls) (turn : Int) (s : PState)
    (halive : s.is_dead = false)
    (hd : (process_world cfg dr dt r turn s).1.is_dead = true) :
    ∀ e ∈ (process_world cfg dr dt r turn s).2, pre_tail_event e := by
  revert hd
  simp only [process_world]
  generalize hA : pw_calendar cfg r turn s = A
  generalize hB : hazard_poison dr A.1 = B
  generalize hC : hazard_cut dr B.1 = C
  generalize hD : hazard_bloodlust r C.1 = D
  generalize hE : pw_digest cfg turn D.1 = E
  generalize hF : pw_starve cfg dr r E.1 = F
  generalize hG : pw_tail dt r turn F.1 = G
  have hcalE := pw_calendar_events cfg r turn s
  rw [hA] at hcalE
  have hpoiE := hazard_poison_events dr A.1
  rw [hB] at hpoiE
  have hcutE := hazard_cut_events dr B.1
  rw [hC] at hcutE
  have hbldE := hazard_bloodlust_events r C.1
  rw [hD] at hbldE
  have hdigE := pw_digest_events cfg turn D.1
  rw [hE] at hdigE
  have hstvE := pw_starve_events cfg dr r E.1
  rw [hF] at hstvE
  by_cases h1 : B.2.2 = true
  · rw [if_pos h1]
    intro _ e he
    rcases List.mem_append.mp he with h | h
    · rcases hcalE e h with h | h | h | h | h <;> unfold pre_tail_event <;> tauto
    · have := hpoiE e h
      unfold pre_tail_event
      tauto
  · rw [if_neg h1]
    by_cases h2 : C.2.2 = true
    · rw [if_pos h2]
      intro _ e he
      rcases List.mem_append.mp he with h | h
      · rcases List.mem_append.mp h with h | h
        · rcases hcalE e h with h | h | h | h | h <;>
            unfold pre_tail_event <;> tauto
        · have := hpoiE e h
          unfold pre_tail_event
          tauto
      · have := hcutE e h
        unfold pre_tail_event
        tauto
    · rw [if_neg h2]
      by_cases h3 : D.2.2 = true
      · rw [if_pos h3]
        intro _ e he
        rcases List.mem_append.mp he with h | h
        · rcases List.mem_append.mp h with h | h
          · rcases List.mem_append.mp h with h | h
            · rcases hcalE e h with h | h | h | h | h <;>
                unfold pre_tail_event <;> tauto
            · have := hpoiE e h
              unfold pre_tail_event
              tauto
          · have := hcutE e h
            unfold pre_tail_event
            tauto
        · have := hbldE e h
          unfold pre_tail_event
          tauto
      · rw [if_neg h3]
        by_cases h4 : F.2.2 = true
        · rw [if_pos h4]
          intro _ e he
          rcases List.mem_append.mp he with h | h
          · rcases List.mem_append.mp h with h | h
            · rcases List.mem_append.mp h with h | h
              · rcases List.mem_append.mp h with h | h
                · rcases List.mem_append.mp h with h | h
                  · rcases List.mem_append.mp h with h | h
                    · rcases List.mem_append.mp h with h | h
                      · rcases hcalE e h with h | h | h | h | h <;>
                          unfold pre_tail_event <;> tauto
                      · have := hpoiE e h
                        unfold pre_tail_event
                        tauto
                    · have := hcutE e h
                      unfold pre_tail_event
                      tauto
                  · have := hbldE e h
                    unfold pre_tail_event
                    tauto
                · have := List.mem_singleton.mp (mem_ite_nil h)
                  unfold pre_tail_event
                  tauto
              · have := mem_evBB h
                unfold pre_tail_event
                tauto
            · rcases hdigE e h with h | h | h <;> unfold pre_tail_event <;> tauto
          · rcases hstvE e h with h | h <;> unfold pre_tail_event <;> tauto
        · rw [if_neg h4]
          intro hd
          exfalso
          have ha : A.1.is_dead = false := by
            rw [← hA, pw_calendar_is_dead]
            exact halive
          have hb : B.1.is_dead = false := by
            have := hazard_poison_alive dr A.1 ha (by rw [hB]; simpa using h1)
            rw [hB] at this
            exact this
          have hc : C.1.is_dead = false := by
            have := hazard_cut_alive dr B.1 hb (by rw [hC]; simpa using h2)
            rw [hC] at this
            exact this
          have hdd : D.1.is_dead = false := by
            have := hazard_bloodlust_alive r C.1 hc (by rw [hD]; simpa using h3)
            rw [hD] at this
            exact this
          have he : E.1.is_dead = false := by
            have := pw_digest_is_dead cfg turn D.1
            rw [hE] at this
            rw [this]
            exact hdd
          have hf : F.1.is_dead = false := by
            have := pw_starve_alive cfg dr r E.1 he (by rw [hF]; simpa using h4)
            rw [hF] at this
            exact this
          have hg : G.1.is_dead = false := by
            have := pw_tail_is_dead dt r turn F.1
            rw [hG] at this
            rw [this]
            exact hf
          rw [hd] at hg
          cases hg

/-- If the player dies during the tick and no starvation damage was
logged, the death happened at the poison, cut or exertion hazard, so
only events from before the digestion block were logged. -/
theorem process_world_death_no_starve_log (cfg : Config) (dr : Nat → Nat)
    (dt : PState → TimedOut) (r : Rolls) (turn : Int) (s : PState)
    (halive : s.is_dead = false)
    (hd : (process_world cfg dr dt r turn s).1.is_dead = true)
    (hns : ∀ n, WEvent.starveDamage n ∉ (process_world cfg dr dt r turn s).2) :
    ∀ e ∈ (process_world cfg dr dt r turn s).2, pre_digest_event e := by
  revert hd hns
  simp only [process_world]
  generalize hA : pw_calendar cfg r turn s = A
  generalize hB : hazard_poison dr A.1 = B
  generalize hC : hazard_cut dr B.1 = C
  generalize hD : hazard_bloodlust r C.1 = D
  generalize hE : pw_digest cfg turn D.1 = E
  generalize hF : pw_starve cfg dr r E.1 = F
  generalize hG : pw_tail dt r turn F.1 = G
  have hcalE := pw_calendar_events cfg r turn s
  rw [hA] at hcalE
  have hpoiE := hazard_poison_events dr A.1
  rw [hB] at hpoiE
  have hcutE := hazard_cut_events dr B.1
  rw [hC] at hcutE
  have hbldE := hazard_bloodlust_events r C.1
  rw [hD] at hbldE
  by_cases h1 : B.2.2 = true
  · rw [if_pos h1]
    intro _ _ e he
    rcases List.mem_append.mp he with h | h
    · rcases hcalE e h with h | h | h | h | h <;>
        unfold pre_digest_event <;> tauto
    · have := hpoiE e h
      unfold pre_digest_event
      tauto
  · rw [if_neg h1]
    by_cases h2 : C.2.2 = true
    · rw [if_pos h2]
      intro _ _ e he
      rcases List.mem_append.mp he with h | h
      · rcases List.mem_append.mp h with h | h
        · rcases hcalE e h with h | h | h | h | h <;>
            unfold pre_digest_event <;> tauto
        · have := hpoiE e h
          unfold pre_digest_event
          tauto
      · have := hcutE e h
        unfold pre_digest_event
        tauto
    · rw [if_neg h2]
      by_cases h3 : D.2.2 = true
      · rw [if_pos h3]
        intro _ _ e he
        rcases List.mem_append.mp he with h | h
        · rcases List.mem_append.mp h with h | h
          · rcases List.mem_append.mp h with h | h
            · rcases hcalE e h with h | h | h | h | h <;>
                unfold pre_digest_event <;> tauto
            · have := hpoiE e h
              unfold pre_digest_event
              tauto
          · have := hcutE e h
            unfold pre_digest_event
            tauto
        · have := hbldE e h
          unfold pre_digest_event
          tauto
      · rw [if_neg h3]
        by_cases h4 : F.2.2 = true
        · rw [if_pos h4]
          intro hd hns
          exfalso
          obtain ⟨n, hn⟩ := pw_starve_died_log cfg dr r E.1 (by rw [hF]; exact h4)
          rw [hF] at hn
          exact hns n (List.mem_append_right _ hn)
        · rw [if_neg h4]
          intro hd
          exfalso
          have ha : A.1.is_dead = false := by
            rw [← hA, pw_calendar_is_dead]
            exact halive
          have hb : B.1.is_dead = false := by
            have := hazard_poison_alive dr A.1 ha (by rw [hB]; simpa using h1)
            rw [hB] at this
            exact this
          have hc : C.1.is_dead = false := by
            have := hazard_cut_alive dr B.1 hb (by rw [hC]; simpa using h2)
            rw [hC] at this
            exact this
          have hdd : D.1.is_dead = false := by
            have := hazard_bloodlust_alive r C.1 hc (by rw [hD]; simpa using h3)
            rw [hD] at this
            exact this
          have he : E.1.is_dead = false := by
            have := pw_digest_is_dead cfg turn D.1
            rw [hE] at this
            rw [this]
            exact hdd
          have hf : F.1.is_dead = false := by
            have := pw_starve_alive cfg dr r E.1 he (by rw [hF]; simpa using h4)
            rw [hF] at this
            exact this
          have hg : G.1.is_dead = false := by
            have := pw_tail_is_dead dt r turn F.1
            rw [hG] at this
            rw [this]
            exact hf
          rw [hd] at hg
          cases hg

/-- A player one poison tick from death. -/
def poison_pstate : PState := { base_pstate with chp := 0, poisoned := 5 }

/-- A starving player whose starvation damage this tick is fatal. -/
def starve_pstate : PState :=
  { base_pstate with chp := 5, food := 0, food_starving := true }

/-- Counterexample to C3 as stated: when the starvation hazard kills
the player, the hunger/food-clock update has already run in that same
tick (the digestion event is in the log even though a hazard death
occurred). -/
theorem starvation_death_counterexample :
    (process_world base_cfg (fun n => n) base_dt base_rolls 100
      starve_pstate).1.is_dead = true ∧
    WEvent.digestFood 10 ∈ (process_world base_cfg (fun n => n) base_dt
      base_rolls 100 starve_pstate).2 := by decide

/-- C3 amended: a hazard death aborts all remaining steps of the tick —
no condition decay via `decrease_timeouts` and no recall or deep-descent
countdown processing ever follow a hazard death, and when the fatal
hazard precedes the digestion block (poison, cut, exertion — i.e. no
starvation damage was logged) no hunger/food-clock update occurs
either.  (Starvation damage itself is checked after the food-clock
update, so a starvation death does not retract that update.) -/
theorem hazard_death_aborts (cfg : Config) (dr : Nat → Nat)
    (dt : PState → TimedOut) (r : Rolls) (turn : Int) (s : PState)
    (halive : s.is_dead = false) :
    ((process_world cfg dr dt r turn s).1.is_dead = true →
      WEvent.decreaseTimeouts ∉ (process_world cfg dr dt r turn s).2 ∧
      WEvent.recallCountdown ∉ (process_world cfg dr dt r turn s).2 ∧
      WEvent.recallActivate ∉ (process_world cfg dr dt r turn s).2 ∧
      WEvent.descentCountdown ∉ (process_world cfg dr dt r turn s).2 ∧
      WEvent.descentActivate ∉ (process_world cfg dr dt r turn s).2 ∧
      WEvent.destruction ∉ (process_world cfg dr dt r turn s).2) ∧
    ((process_world cfg dr dt r turn s).1.is_dead = true →
      (∀ n, WEvent.starveDamage n ∉ (process_world cfg dr dt r turn s).2) →
      (∀ n, WEvent.digestFood n ∉ (process_world cfg dr dt r turn s).2) ∧
      (∀ n, WEvent.fastMetabolism n ∉ (process_world cfg dr dt r turn s).2) ∧
      (∀ n, WEvent.gorgedDigest n ∉ (process_world cfg dr dt r turn s).2)) := by
  constructor
  · intro hd
    have hlog := process_world_death_log cfg dr dt r turn s halive hd
    refine ⟨fun hm => ?_, fun hm => ?_, fun hm => ?_, fun hm => ?_,
      fun hm => ?_, fun hm => ?_⟩ <;>
    · have := hlog _ hm
      revert this
      simp [pre_tail_event]
  · intro hd hns
    have hlog := process_world_death_no_starve_log cfg dr dt r turn s halive hd hns
    refine ⟨fun n hm => ?_, fun n hm => ?_, fun n hm => ?_⟩ <;>
    · have := hlog _ hm
      revert this
      simp [pre_digest_event]

/-- Witness for C3 (amended): a fatal poison tick logs neither a
condition decay, nor scheduled-event processing, nor any food-clock
update. -/
theorem hazard_death_aborts_witness :
    WEvent.decreaseTimeouts ∉ (process_world base_cfg (fun n => n) base_dt
      base_rolls 10 poison_pstate).2 ∧
    ∀ n, WEvent.digestFood n ∉ (process_world base_cfg (fun n => n) base_dt
      base_rolls 10 poison_pstate).2 := by
  have h := hazard_death_aborts base_cfg (fun n => n) base_dt base_rolls 10
    poison_pstate (by decide)
  have hlogeq : (process_world base_cfg (fun n => n) base_dt base_rolls 10
      poison_pstate).2 = [WEvent.poisonDamage 1] := by decide
  have hns : ∀ n, WEvent.starveDamage n ∉ (process_world base_cfg
      (fun n => n) base_dt base_rolls 10 poison_pstate).2 := by
    intro n hm
    rw [hlogeq] at hm
    simp at hm
  exact ⟨(h.1 (by decide)).1, (h.2 (by decide) hns).1⟩

/-! ## Claim theorems: the food clock (C8) -/

/-- The digestion rate as the specification states it: the round energy
for the player's speed scaled by the food-value constant, doubled under
the regeneration trait, halved under the slow-digestion trait, with a
floor of 1 unit per check. -/
def digest_amount (cfg : Config) (s : PState) : Nat :=
  let i1 := turn_energy cfg.move_energy s.speed
  let i2 := i1 * 100 / cfg.food_value
  let i3 := if s.regen then i2 * 2 else i2
  let i4 := if s.slow_digest then i3 / 2 else i3
  if i4 < 1 then 1 else i4

/-- The phases before digestion leave the digestion-relevant fields
(food grade, speed, traits) unchanged. -/
theorem pw_calendar_digest_fields (cfg : Config) (r : Rolls) (turn : Int)
    (s : PState) :
    (pw_calendar cfg r turn s).1.food_full = s.food_full ∧
    digest_amount cfg (pw_calendar cfg r turn s).1 = digest_amount cfg s := by
  rcases pw_calendar_state cfg r turn s with h | h <;> rw [h] <;> exact ⟨rfl, rfl⟩

theorem hazard_poison_digest_fields (cfg : Config) (dr : Nat → Nat) (s : PState) :
    (hazard_poison dr s).1.food_full = s.food_full ∧
    digest_amount cfg (hazard_poison dr s).1 = digest_amount cfg s := by
  simp only [hazard_poison, take_hit]
  split_ifs <;> exact ⟨rfl, rfl⟩

theorem hazard_cut_digest_fields (cfg : Config) (dr : Nat → Nat) (s : PState) :
    (hazard_cut dr s).1.food_full = s.food_full ∧
    digest_amount cfg (hazard_cut dr s).1 = digest_amount cfg s := by
  simp only [hazard_cut, take_hit]
  split_ifs <;> exact ⟨rfl, rfl⟩

theorem hazard_bloodlust_digest_fields (cfg : Config) (r : Rolls) (s : PState) :
    (hazard_bloodlust r s).1.food_full = s.food_full ∧
    digest_amount cfg (hazard_bloodlust r s).1 = digest_amount cfg s := by
  simp only [hazard_bloodlust, player_over_exert]
  split_ifs <;> exact ⟨rfl, rfl⟩

/-- When the player is not gorged and the turn count is a multiple of
100, the digestion block logs the food-clock decrement with the
stealth-adjusted amount. -/
theorem pw_digest_log_normal (cfg : Config) (turn : Int) (s : PState)
    (hff : s.food_full = false) (ht : turn % 100 = 0) :
    WEvent.digestFood (digest_amount cfg s) ∈ (pw_digest cfg turn s).2 := by
  simp only [pw_digest, dec_food, digest_amount]
  split_ifs <;> simp_all

/-- When the player is gorged, the digestion block logs the alternate
fast fixed decrement unconditionally. -/
theorem pw_digest_log_gorged (cfg : Config) (turn : Int) (s : PState)
    (hff : s.food_full = true) :
    WEvent.gorgedDigest (5000 / cfg.food_value) ∈ (pw_digest cfg turn s).2 := by
  simp only [pw_digest, dec_food]
  split_ifs <;> simp_all

/-- Counterexample to C8 as stated: on a world tick whose turn count is
not a multiple of 100, a non-gorged player's food clock is not
decremented at all (the tick completes with the player alive and the
food value unchanged). -/
theorem digestion_every_tick_counterexample :
    base_pstate.food_full = false ∧
    (10 : Int) % 10 = 0 ∧
    (process_world base_cfg (fun n => n) base_dt base_rolls 10
      base_pstate).1.is_dead = false ∧
    (process_world base_cfg (fun n => n) base_dt base_rolls 10
      base_pstate).1.food = base_pstate.food := by decide

/-- C8 amended: on every world tick the player survives, if the player
is not at the gorged food grade the food clock is decremented by the
round-energy-derived amount (doubled under regeneration, halved under
slow digestion, floor 1) — but only on ticks whose turn count is a
multiple of 100 (every tenth tick); when gorged, the alternate fast
fixed decrement `5000 / food_value` is logged on every tick. -/
theorem digestion_schedule (cfg : Config) (dr : Nat → Nat)
    (dt : PState → TimedOut) (r : Rolls) (turn : Int) (s : PState)
    (halive : (process_world cfg dr dt r turn s).1.is_dead = false) :
    (s.food_full = false → turn % 100 = 0 →
      WEvent.digestFood (digest_amount cfg s) ∈
        (process_world cfg dr dt r turn s).2) ∧
    (s.food_full = true →
      WEvent.gorgedDigest (5000 / cfg.food_value) ∈
        (process_world cfg dr dt r turn s).2) := by
  revert halive
  simp only [process_world]
  generalize hA : pw_calendar cfg r turn s = A
  generalize hB : hazard_poison dr A.1 = B
  generalize hC : hazard_cut dr B.1 = C
  generalize hD : hazard_bloodlust r C.1 = D
  generalize hE : pw_digest cfg turn D.1 = E
  generalize hF : pw_starve cfg dr r E.1 = F
  generalize hG : pw_tail dt r turn F.1 = G
  have hAf := pw_calendar_digest_fields cfg r turn s
  rw [hA] at hAf
  have hBf := hazard_poison_digest_fields cfg dr A.1
  rw [hB] at hBf
  have hCf := hazard_cut_digest_fields cfg dr B.1
  rw [hC] at hCf
  have hDf := hazard_bloodlust_digest_fields cfg r C.1
  rw [hD] at hDf
  have hfull : D.1.food_full = s.food_full := by
    rw [hDf.1, hCf.1, hBf.1, hAf.1]
  have hamount : digest_amount cfg D.1 = digest_amount cfg s := by
    rw [hDf.2, hCf.2, hBf.2, hAf.2]
  by_cases h1 : B.2.2 = true
  · rw [if_pos h1]
    intro hdead
    exfalso
    have := hazard_poison_died dr A.1 (by rw [hB]; exact h1)
    rw [hB, hdead] at this
    cases this
  · rw [if_neg h1]
    by_cases h2 : C.2.2 = true
    · rw [if_pos h2]
      intro hdead
      exfalso
      have := hazard_cut_died dr B.1 (by rw [hC]; exact h2)
      rw [hC, hdead] at this
      cases this
    · rw [if_neg h2]
      by_cases h3 : D.2.2 = true
      · rw [if_pos h3]
        intro hdead
        exfalso
        have := hazard_bloodlust_died r C.1 (by rw [hD]; exact h3)
        rw [hD, hdead] at this
        cases this
      · rw [if_neg h3]
        by_cases h4 : F.2.2 = true
        · rw [if_pos h4]
          intro hdead
          exfalso
          have := pw_starve_died cfg dr r E.1 (by rw [hF]; exact h4)
          rw [hF, hdead] at this
          cases this
        · rw [if_neg h4]
          intro _
          have hmem : ∀ x, x ∈ E.2 →
              x ∈ A.2 ++ B.2.1 ++ C.2.1 ++ D.2.1 ++
                (if D.1.heal ≠ 0 then [WEvent.healHp] else []) ++
                (if D.1.blackbreath ≠ 0 then
                  (if r.bb_con then [WEvent.blackBreath] else []) ++
                  (if r.bb_str then [WEvent.blackBreath] else []) ++
                  (if r.bb_life then [WEvent.blackBreath] else [])
                else []) ++ E.2 ++ F.2.1 ++ G.2 := by
            intro x hx
            exact List.mem_append_left _ (List.mem_append_left _
              (List.mem_append_right _ hx))
          constructor
          · intro hff ht
            have := pw_digest_log_normal cfg turn D.1
              (by rw [hfull]; exact hff) ht
            rw [hE, hamount] at this
            exact hmem _ this
          · intro hff
            have := pw_digest_log_gorged cfg turn D.1 (by rw [hfull]; exact hff)
            rw [hE] at this
            exact hmem _ this

/-- Witness for C8 (amended): a surviving non-gorged player at speed
110 on turn 100 has the food-clock decrement of 10 logged; a gorged
player has the fast decrement of 50 logged on a turn that is not a
multiple of 100. -/
theorem digestion_schedule_witness :
    WEvent.digestFood (digest_amount base_cfg base_pstate) ∈
      (process_world base_cfg (fun n => n) base_dt base_rolls 100
        base_pstate).2 ∧
    WEvent.gorgedDigest (5000 / base_cfg.food_value) ∈
      (process_world base_cfg (fun n => n) base_dt base_rolls 10
        { base_pstate with food_full := true }).2 :=
  ⟨(digestion_schedule base_cfg (fun n => n) base_dt base_rolls 100
      base_pstate (by decide)).1 (by decide) (by decide),
   (digestion_schedule base_cfg (fun n => n) base_dt base_rolls 10
      { base_pstate with food_full := true } (by decide)).2 (by decide)⟩

/-! ## The main loop orchestrator (`run_game_loop`)

One iteration of the steady-state `while (true)` loop of
`run_game_loop` (game-world.c lines 1125–1213) is transcribed.  The
external phases — `notice_stuff`/`handle_stuff`/refresh,
`process_monsters(0)`, `reset_monsters`, the world tick's effect on the
player, the level teardown/build handoff, and the trailing
player-and-faster-monsters loop (which runs zero or more times while the
player holds a move threshold of energy) — are abstracted as oracle
functions on the loop state; the theorems assume only that none of them
touches the world clock, which `turn++` alone advances in the source. -/

/-- The loop state read by the orchestrator: the world clock, the
player's energy and speed, and the control flags. -/
structure LoopState where
  turn : Int
  energy : Nat
  speed : Nat
  is_dead : Bool
  playing : Bool
  generate_level : Bool
deriving DecidableEq, Repr

/-- The abstracted collaborator phases of one round. -/
structure LoopOracles where
  handle_stuff : LoopState → LoopState
  process_monsters : LoopState → LoopState
  reset_monsters : LoopState → LoopState
  world_tick : LoopState → LoopState
  build_level : LoopState → LoopState
  player_phase : LoopState → LoopState × Bool
  move_energy : Nat

/-- The observable steps of one round, in execution order. -/
inductive REvent where
  | refresh
  | processMonsters
  | resetMonsters
  | worldTick
  | grantEnergy
  | clockAdvance
  | generateLevel
  | playerPhase
deriving DecidableEq, Repr

/-- One iteration of the steady-state loop of `run_game_loop`; the
final component is true when the iteration returns to the caller
(death, stop-playing, or the player phase needing real input). -/
def game_loop_iter (os : LoopOracles) (s0 : LoopState) :
    LoopState × List REvent × Bool :=
  let s1 := os.handle_stuff s0
  if s1.is_dead || !s1.playing then (s1, [REvent.refresh], true) else
  let main :=
    if !s1.generate_level then
      let s2 := os.process_monsters s1
      let s3 := os.reset_monsters s2
      let s4 := os.handle_stuff s3
      if s4.is_dead || !s4.playing then
        (s4, [REvent.refresh, REvent.processMonsters, REvent.resetMonsters,
          REvent.refresh], true)
      else
        let tick :=
          if s4.turn % 10 = 0 && !s4.generate_level then
            let s5 := os.handle_stuff (os.world_tick s4)
            if s5.is_dead || !s5.playing then
              (s5, [REvent.worldTick, REvent.refresh], true)
            else (s5, [REvent.worldTick, REvent.refresh], false)
          else (s4, [], false)
        if tick.2.2 then
          (tick.1, [REvent.refresh, REvent.processMonsters,
            REvent.resetMonsters, REvent.refresh] ++ tick.2.1, true)
        else
          let s7 := { tick.1 with
            energy := tick.1.energy + turn_energy os.move_energy tick.1.speed }
          let s8 := { s7 with turn := s7.turn + 1 }
          (s8, [REvent.refresh, REvent.processMonsters, REvent.resetMonsters,
            REvent.refresh] ++ tick.2.1 ++ [REvent.grantEnergy,
            REvent.clockAdvance], false)
    else (s1, [REvent.refresh], false)
  if main.2.2 then main else
  let gen :=
    if main.1.generate_level then
      ({ os.build_level main.1 with generate_level := false },
        main.2.1 ++ [REvent.generateLevel])
    else (main.1, main.2.1)
  let pl := os.player_phase gen.1
  (pl.1, gen.2 ++ [REvent.playerPhase], pl.2)

/-- The loop state after the opening refresh of a round. -/
def gl_s1 (os : LoopOracles) (s0 : LoopState) : LoopState := os.handle_stuff s0

/-- The loop state after the remaining actors have acted and been
marked ready (the state the tick-due test reads). -/
def gl_s4 (os : LoopOracles) (s0 : LoopState) : LoopState :=
  os.handle_stuff (os.reset_monsters (os.process_monsters (gl_s1 os s0)))

/-! ## Claim theorems: world clock and tick placement (C2) -/

/-- C2: in each iteration of the steady-state orchestrator loop the
world clock advances by exactly 1 when the round completes (the clock
advance is logged) and is untouched otherwise — it never skips and
never regresses; the world tick fires iff the round was not aborted,
the clock is divisible by 10, and no level regeneration is pending at
the moment of the check; and when it fires it runs after the remaining
actors have acted and been marked ready, and before the player's energy
grant and the clock advance.  The hypotheses record that no external
phase touches the world clock (in the source only `turn++` writes
`turn`). -/
theorem world_clock_round (os : LoopOracles) (s0 : LoopState)
    (hhs : ∀ t, (os.handle_stuff t).turn = t.turn)
    (hpm : ∀ t, (os.process_monsters t).turn = t.turn)
    (hrm : ∀ t, (os.reset_monsters t).turn = t.turn)
    (hwt : ∀ t, (os.world_tick t).turn = t.turn)
    (hbl : ∀ t, (os.build_level t).turn = t.turn)
    (hpp : ∀ t, (os.player_phase t).1.turn = t.turn) :
    ((REvent.clockAdvance ∈ (game_loop_iter os s0).2.1 →
        (game_loop_iter os s0).1.turn = s0.turn + 1) ∧
      (REvent.clockAdvance ∉ (game_loop_iter os s0).2.1 →
        (game_loop_iter os s0).1.turn = s0.turn)) ∧
    (REvent.worldTick ∈ (game_loop_iter os s0).2.1 ↔
      ((gl_s1 os s0).is_dead = false ∧ (gl_s1 os s0).playing = true ∧
        (gl_s1 os s0).generate_level = false ∧
        (gl_s4 os s0).is_dead = false ∧ (gl_s4 os s0).playing = true ∧
        s0.turn % 10 = 0 ∧ (gl_s4 os s0).generate_level = false)) ∧
    (REvent.worldTick ∈ (game_loop_iter os s0).2.1 →
      ∃ l1 l2, (game_loop_iter os s0).2.1 = l1 ++ REvent.worldTick :: l2 ∧
        REvent.processMonsters ∈ l1 ∧ REvent.resetMonsters ∈ l1 ∧
        REvent.grantEnergy ∉ l1 ∧ REvent.clockAdvance ∉ l1 ∧
        (REvent.clockAdvance ∈ (game_loop_iter os s0).2.1 →
          REvent.grantEnergy ∈ l2 ∧ REvent.clockAdvance ∈ l2)) := by
  simp only [game_loop_iter, gl_s1, gl_s4]
  generalize hs1 : os.handle_stuff s0 = s1
  have e1 : s1.turn = s0.turn := by rw [← hs1]; exact hhs s0
  by_cases c1 : (s1.is_dead || !s1.playing) = true
  · rw [if_pos c1]
    refine ⟨⟨?_, ?_⟩, ?_, ?_⟩
    · intro hmem
      simp at hmem
    · intro _
      exact e1
    · refine iff_of_false (by simp) ?_
      rintro ⟨hA, hB, -⟩
      rw [hA, hB] at c1
      simp at c1
    · intro hmem
      simp at hmem
  · rw [if_neg c1]
    simp at c1
    by_cases c2 : (!s1.generate_level) = true
    · rw [if_pos c2]
      simp only [Bool.not_eq_true'] at c2
      generalize hs2 : os.process_monsters s1 = s2
      generalize hs3 : os.reset_monsters s2 = s3
      generalize hs4 : os.handle_stuff s3 = s4
      have e4 : s4.turn = s0.turn := by
        rw [← hs4, hhs, ← hs3, hrm, ← hs2, hpm, e1]
      by_cases c3 : (s4.is_dead || !s4.playing) = true
      · rw [if_pos c3]
        refine ⟨⟨?_, ?_⟩, ?_, ?_⟩
        · intro hmem
          simp at hmem
        · intro _
          exact e4
        · refine iff_of_false (by simp) ?_
          rintro ⟨-, -, -, hA, hB, -⟩
          rw [hA, hB] at c3
          simp at c3
        · intro hmem
          simp at hmem
      · rw [if_neg c3]
        simp at c3
        by_cases c4 : (decide (s4.turn % 10 = 0) && !s4.generate_level) = true
        · rw [if_pos c4]
          simp only [Bool.and_eq_true, Bool.not_eq_true',
            decide_eq_true_eq] at c4
          generalize hs5 : os.handle_stuff (os.world_tick s4) = s5
          have e5 : s5.turn = s0.turn := by
            rw [← hs5, hhs, hwt, e4]
          by_cases c5 : (s5.is_dead || !s5.playing) = true
          · rw [if_pos c5]
            refine ⟨⟨?_, ?_⟩, ?_, ?_⟩
            · intro hmem
              simp at hmem
            · intro _
              simpa using e5
            · refine iff_of_true (by simp) ?_
              exact ⟨c1.1, c1.2, c2, c3.1, c3.2, by rw [← e4]; exact c4.1, c4.2⟩
            · intro _
              refine ⟨[REvent.refresh, REvent.processMonsters,
                REvent.resetMonsters, REvent.refresh], [REvent.refresh],
                by simp, by simp, by simp, by simp, by simp, ?_⟩
              intro hmem
              simp at hmem
          · rw [if_neg c5]
            by_cases c6 : s5.generate_level = true
            · have c6x : (os.player_phase { os.build_level { s5 with
                  energy := s5.energy + turn_energy os.move_energy s5.speed,
                  turn := s5.turn + 1 } with generate_level := false }).1.turn
                  = s0.turn + 1 := by
                rw [hpp]
                simp [hbl, e5]
              refine ⟨⟨?_, ?_⟩, ?_, ?_⟩
              · intro _
                simp [c6, c6x, hpp, hbl, e5]
              · intro hmem
                simp [c6] at hmem
              · refine iff_of_true (by simp [c6]) ?_
                exact ⟨c1.1, c1.2, c2, c3.1, c3.2, by rw [← e4]; exact c4.1, c4.2⟩
              · intro _
                refine ⟨[REvent.refresh, REvent.processMonsters,
                  REvent.resetMonsters, REvent.refresh],
                  [REvent.refresh, REvent.grantEnergy, REvent.clockAdvance,
                    REvent.generateLevel, REvent.playerPhase],
                  by simp [c6], by simp, by simp, by simp, by simp, ?_⟩
                intro _
                simp
            · refine ⟨⟨?_, ?_⟩, ?_, ?_⟩
              · intro _
                simp [c6, hpp, e5]
              · intro hmem
                simp [c6] at hmem
              · refine iff_of_true (by simp [c6]) ?_
                exact ⟨c1.1, c1.2, c2, c3.1, c3.2, by rw [← e4]; exact c4.1, c4.2⟩
              · intro _
                refine ⟨[REvent.refresh, REvent.processMonsters,
                  REvent.resetMonsters, REvent.refresh],
                  [REvent.refresh, REvent.grantEnergy, REvent.clockAdvance,
                    REvent.playerPhase],
                  by simp [c6], by simp, by simp, by simp, by simp, ?_⟩
                intro _
                simp
        · rw [if_neg c4]
          simp only [Bool.and_eq_true, Bool.not_eq_true',
            decide_eq_true_eq, not_and] at c4
          by_cases c6 : s4.generate_level = true
          · refine ⟨⟨?_, ?_⟩, ?_, ?_⟩
            · intro _
              simp [c6, hpp, hbl, e4]
            · intro hmem
              simp [c6] at hmem
            · refine iff_of_false (by simp [c6]) ?_
              rintro ⟨-, -, -, -, -, -, hg⟩
              rw [c6] at hg
              cases hg
            · intro hmem
              simp [c6] at hmem
          · refine ⟨⟨?_, ?_⟩, ?_, ?_⟩
            · intro _
              simp [c6, hpp, e4]
            · intro hmem
              simp [c6] at hmem
            · refine iff_of_false (by simp [c6]) ?_
              rintro ⟨-, -, -, -, -, ht, hg⟩
              rw [← e4] at ht
              exact absurd hg (c4 ht)
            · intro hmem
              simp [c6] at hmem
    · rw [if_neg c2]
      simp at c2
      refine ⟨⟨?_, ?_⟩, ?_, ?_⟩
      · intro hmem
        simp [c2] at hmem
      · intro _
        simp [c2, hpp, hbl, e1]
      · refine iff_of_false (by simp [c2]) ?_
        rintro ⟨-, -, hg, -⟩
        rw [c2] at hg
        cases hg
      · intro hmem
        simp [c2] at hmem

/-- Concrete oracles for the orchestrator witness: the external phases
change nothing and the player phase asks for input. -/
def base_oracles : LoopOracles :=
  { handle_stuff := id, process_monsters := id, reset_monsters := id,
    world_tick := id, build_level := id,
    player_phase := fun s => (s, true), move_energy := 100 }

/-- A live loop state on a tick boundary. -/
def base_loopstate : LoopState :=
  { turn := 20, energy := 0, speed := 110, is_dead := false,
    playing := true, generate_level := false }

/-- Witness for C2: on a live round at turn 20 the clock advances to 21
and the world tick fires. -/
theorem world_clock_round_witness :
    (game_loop_iter base_oracles base_loopstate).1.turn =
      base_loopstate.turn + 1 ∧
    REvent.worldTick ∈ (game_loop_iter base_oracles base_loopstate).2.1 := by
  have h := world_clock_round base_oracles base_loopstate
    (fun _ => rfl) (fun _ => rfl) (fun _ => rfl) (fun _ => rfl)
    (fun _ => rfl) (fun _ => rfl)
  exact ⟨h.1.1 (by decide), (h.2.1).mpr (by decide)⟩

/-! ## Noise propagation (`make_noise`)

`make_noise` resets the interior of the noise grid to silence, seeds
the player's grid with noise 0, and runs a queue-driven wavefront fill:
popping a grid whose stored value equals the current noise counter acts
as a ring boundary (the grid is re-enqueued and the counter advances by
the stealth increment); any other popped grid assigns the current
counter to each in-bounds, sound-transmitting, still-silent,
non-player neighbour and enqueues it.  The C queue stores
`grid_to_i`-encoded grids; since the encoding round-trips on in-bounds
grids (`i_to_grid_grid_to_i`), the model stores the decoded locations
directly.  The C `while` loop is modelled with a fuel argument; the
correctness theorem shows the chosen fuel is never exhausted. -/

/-- The reset loop of `make_noise`: every grid strictly inside the
border is set to silence. -/
def noise_reset (c : Cave) (G : Loc → Nat) : Loc → Nat :=
  fun l => if square_in_bounds_fully c l = true then 0 else G l

/-- The child-expansion loop (`for (d = 0; d < 8; d++)`) of
`make_noise`: each neighbour that is in bounds, transmits sound, has no
noise yet and is not the player's grid is assigned the current noise
value and enqueued. -/
def noise_expand_step (c : Cave) (p : Loc) (noise : Nat) (next : Loc)
    (acc : (Loc → Nat) × List Loc) (d : Loc) : (Loc → Nat) × List Loc :=
  let grid := loc_sum next d
  if square_in_bounds c grid = false then acc
  else if c.noflow grid = true then acc
  else if acc.1 grid ≠ 0 then acc
  else if grid = p then acc
  else (Function.update acc.1 grid noise, acc.2 ++ [grid])

def noise_expand (c : Cave) (p : Loc) (noise : Nat) (next : Loc)
    (G : Loc → Nat) : (Loc → Nat) × List Loc :=
  ddgrid_ddd.foldl (noise_expand_step c p noise next) (G, [])

/-- The propagation loop of `make_noise`. -/
def noise_loop (c : Cave) (p : Loc) (inc : Nat) :
    Nat → List Loc → Nat → (Loc → Nat) → (Loc → Nat)
  | 0, _, _, G => G
  | _ + 1, [], _, G => G
  | fuel + 1, next :: queue, noise, G =>
    if G next = noise then
      noise_loop c p inc fuel (queue ++ [next]) (noise + inc) G
    else
      let res := noise_expand c p noise next G
      noise_loop c p inc fuel (queue ++ res.2) noise res.1

/-- Fuel sufficient for any level: every grid is enqueued at most once
by expansion plus once by the seeding, and each queue entry is popped at
most twice (once as a ring boundary, once to be expanded). -/
def noise_fuel (c : Cave) : Nat := 2 * (c.height.toNat * c.width.toNat) + 3

/-- `make_noise` from `game-world.c`: recompute the noise grid from the
player's position, with stealth increment 4 while `TMD_COVERTRACKS` is
active and 1 otherwise. -/
def make_noise (c : Cave) (p : Loc) (covertracks : Bool) (G : Loc → Nat) :
    Loc → Nat :=
  let noise_increment := if covertracks then 4 else 1
  let G0 := Function.update (noise_reset c G) p 0
  noise_loop c p noise_increment (noise_fuel c) [p] (0 + noise_increment) G0

/-! ## Reachability through sound-transmitting terrain

The specification side: `reachB c p k l` says `l` can be reached from
the player in at most `k` eight-neighbour steps through in-bounds,
sound-transmitting, non-player grids. -/

/-- Reachable from the player within `k` steps. -/
def reachB (c : Cave) (p : Loc) : Nat → Loc → Bool
  | 0, l => decide (l = p)
  | k + 1, l =>
    reachB c p k l ||
      (decide (l ≠ p) && square_in_bounds c l && !c.noflow l &&
        ddgrid_ddd.any (fun d => reachB c p k (loc_sum l d)))

/-- `l` lies at exactly distance `k` from the player. -/
def dist_eq (c : Cave) (p : Loc) (k : Nat) (l : Loc) : Prop :=
  reachB c p k l = true ∧ (k = 0 ∨ reachB c p (k - 1) l = false)

/-- Reachability is monotone in the step bound. -/
theorem reachB_mono (c : Cave) (p : Loc) {k k' : Nat} (h : k ≤ k') {l : Loc}
    (hr : reachB c p k l = true) : reachB c p k' l = true := by
  induction k' with
  | zero =>
    have : k = 0 := Nat.le_zero.mp h
    rw [← this]
    exact hr
  | succ n ih =>
    rcases Nat.lt_or_ge k (n + 1) with hlt | hge
    · have := ih (Nat.lt_succ_iff.mp hlt)
      unfold reachB
      rw [this]
      rfl
    · have : k = n + 1 := Nat.le_antisymm h hge
      rw [← this]
      exact hr

/-- Distance zero is exactly the player's own grid. -/
theorem dist_eq_zero (c : Cave) (p : Loc) (l : Loc) :
    dist_eq c p 0 l ↔ l = p := by
  unfold dist_eq reachB
  simp

/-- Distances are unique. -/
theorem dist_eq_unique (c : Cave) (p : Loc) {k k' : Nat} {l : Loc}
    (h : dist_eq c p k l) (h' : dist_eq c p k' l) : k = k' := by
  by_contra hne
  rcases Nat.lt_or_ge k k' with hlt | hge
  · rcases h'.2 with h0 | hf
    · omega
    · have := reachB_mono c p (by omega : k ≤ k' - 1) h.1
      rw [this] at hf
      cases hf
  · have hlt : k' < k := by omega
    rcases h.2 with h0 | hf
    · omega
    · have := reachB_mono c p (by omega : k' ≤ k - 1) h'.1
      rw [this] at hf
      cases hf

/-- A grid reachable within `k` steps has an exact distance at most
`k`. -/
theorem exists_dist_of_reachB (c : Cave) (p : Loc) :
    ∀ k l, reachB c p k l = true → ∃ k0, k0 ≤ k ∧ dist_eq c p k0 l := by
  intro k
  induction k with
  | zero => exact fun l h => ⟨0, Nat.le_refl 0, h, Or.inl rfl⟩
  | succ n ih =>
    intro l h
    rcases hr : reachB c p n l with _ | _
    · exact ⟨n + 1, Nat.le_refl _, h, Or.inr (by simpa using hr)⟩
    · obtain ⟨k0, hk0, hd⟩ := ih l hr
      exact ⟨k0, Nat.le_succ_of_le hk0, hd⟩

/-- A grid at positive distance is an in-bounds, sound-transmitting,
non-player grid. -/
theorem dist_eq_open (c : Cave) (p : Loc) {k : Nat} {l : Loc}
    (h : dist_eq c p (k + 1) l) :
    l ≠ p ∧ square_in_bounds c l = true ∧ c.noflow l = false := by
  obtain ⟨hr, h2⟩ := h
  rcases h2 with h0 | hf
  · omega
  · simp only [Nat.add_sub_cancel] at hf
    unfold reachB at hr
    rw [hf] at hr
    simp at hr
    exact ⟨hr.1.1.1, hr.1.1.2, hr.1.2⟩

/-- The offsets are closed under negation. -/
theorem ddgrid_ddd_neg : ∀ d ∈ ddgrid_ddd, (⟨-d.y, -d.x⟩ : Loc) ∈ ddgrid_ddd := by
  decide

/-- Adjacency is symmetric, phrased on the offset list. -/
theorem grid_adjacent_comm {a b : Loc} (h : grid_adjacent a b) :
    grid_adjacent b a := grid_adjacent_symm a b h

/-- A grid at distance `k + 1` has a neighbour at distance `k`. -/
theorem dist_eq_succ_neighbor (c : Cave) (p : Loc) {k : Nat} {l : Loc}
    (h : dist_eq c p (k + 1) l) :
    ∃ m, dist_eq c p k m ∧ grid_adjacent m l := by
  obtain ⟨hr, h2⟩ := h
  have hf : reachB c p k l = false := by
    rcases h2 with h0 | hf
    · omega
    · simpa using hf
  unfold reachB at hr
  rw [hf] at hr
  simp only [Bool.false_or, Bool.and_eq_true, List.any_eq_true] at hr
  obtain ⟨⟨⟨hnp, hb⟩, hnf⟩, d, hd, hrd⟩ := hr
  obtain ⟨k0, hk0, hdist⟩ := exists_dist_of_reachB c p k (loc_sum l d) hrd
  have hk0k : k0 = k := by
    by_contra hne
    have hk0lt : k0 < k := by omega
    have hstep : reachB c p (k0 + 1) l = true := by
      unfold reachB
      rw [Bool.or_eq_true]
      right
      simp only [Bool.and_eq_true, List.any_eq_true]
      exact ⟨⟨⟨hnp, hb⟩, hnf⟩, d, hd, hdist.1⟩
    have := reachB_mono c p (by omega : k0 + 1 ≤ k) hstep
    rw [this] at hf
    cases hf
  subst hk0k
  refine ⟨loc_sum l d, hdist, ?_⟩
  apply grid_adjacent_comm
  exact ⟨d, hd, rfl⟩

/-- A sound-transmitting non-player grid adjacent to a grid at distance
`k` is reachable within `k + 1` steps. -/
theorem reachB_of_neighbor (c : Cave) (p : Loc) {k : Nat} {m l : Loc}
    (hm : dist_eq c p k m) (hadj : grid_adjacent m l) (hnp : l ≠ p)
    (hb : square_in_bounds c l = true) (hnf : c.noflow l = false) :
    reachB c p (k + 1) l = true := by
  obtain ⟨d, hd, hld⟩ := grid_adjacent_comm hadj
  unfold reachB
  rw [Bool.or_eq_true]
  right
  simp only [Bool.and_eq_true, List.any_eq_true, decide_eq_true_eq,
    Bool.not_eq_true']
  exact ⟨⟨⟨hnp, hb⟩, hnf⟩, d, hd, by rw [← hld]; exact hm.1⟩

/-! ## Characterizing one expansion -/

/-- Adding distinct offsets to the same grid yields distinct
neighbours. -/
theorem loc_sum_inj_right (next : Loc) {d1 d2 : Loc}
    (h : loc_sum next d1 = loc_sum next d2) : d1 = d2 := by
  unfold loc_sum at h
  have hy : next.y + d1.y = next.y + d2.y := congrArg Loc.y h
  have hx : next.x + d1.x = next.x + d2.x := congrArg Loc.x h
  cases d1
  cases d2
  simp_all

/-- The expansion fold, characterized over any suffix of the offset
list: it appends exactly the in-bounds, sound-transmitting, silent,
non-player neighbours not yet enqueued, assigns them the current noise
value, and touches nothing else. -/
theorem noise_expand_go (c : Cave) (p : Loc) (noise : Nat) (next : Loc)
    (G : Loc → Nat) (hnz : noise ≠ 0) :
    ∀ (D : List Loc) (H : Loc → Nat) (out : List Loc),
      (∀ d ∈ D, loc_sum next d ∉ out) →
      (∀ l ∈ out, H l = noise) →
      (∀ l, l ∉ out → H l = G l) →
      out.Nodup → D.Nodup →
      (∀ l, l ∈ (D.foldl (noise_expand_step c p noise next) (H, out)).2 ↔
        l ∈ out ∨
        (square_in_bounds c l = true ∧ c.noflow l = false ∧ G l = 0 ∧
          l ≠ p ∧ ∃ d ∈ D, l = loc_sum next d)) ∧
      (∀ l ∈ (D.foldl (noise_expand_step c p noise next) (H, out)).2,
        (D.foldl (noise_expand_step c p noise next) (H, out)).1 l = noise) ∧
      (∀ l, l ∉ (D.foldl (noise_expand_step c p noise next) (H, out)).2 →
        (D.foldl (noise_expand_step c p noise next) (H, out)).1 l = G l) ∧
      (D.foldl (noise_expand_step c p noise next) (H, out)).2.Nodup := by
  intro D
  induction D with
  | nil =>
    intro H out hdisj h1 h2 hnd _
    simp only [List.foldl_nil]
    exact ⟨fun l => by simp, h1, h2, hnd⟩
  | cons d D ih =>
    intro H out hdisj h1 h2 hnd hDnd
    rw [List.foldl_cons]
    have hchout : loc_sum next d ∉ out := hdisj d (List.mem_cons_self d D)
    have hstep : noise_expand_step c p noise next (H, out) d =
        if square_in_bounds c (loc_sum next d) = false then (H, out)
        else if c.noflow (loc_sum next d) = true then (H, out)
        else if H (loc_sum next d) ≠ 0 then (H, out)
        else if loc_sum next d = p then (H, out)
        else (Function.update H (loc_sum next d) noise,
          out ++ [loc_sum next d]) := rfl
    by_cases hb : square_in_bounds c (loc_sum next d) = false
    · rw [hstep, if_pos hb]
      obtain ⟨m1, m2, m3, m4⟩ := ih H out
        (fun d' hd' => hdisj d' (List.mem_cons_of_mem d hd'))
        h1 h2 hnd (List.nodup_cons.mp hDnd).2
      refine ⟨fun l => ?_, m2, m3, m4⟩
      rw [m1 l]
      constructor
      · rintro (h | ⟨hbb, hnf, hg, hp, d', hd', rfl⟩)
        · exact Or.inl h
        · exact Or.inr ⟨hbb, hnf, hg, hp, d', List.mem_cons_of_mem d hd', rfl⟩
      · rintro (h | ⟨hbb, hnf, hg, hp, d', hd', rfl⟩)
        · exact Or.inl h
        · rcases List.mem_cons.mp hd' with rfl | hd'
          · rw [hbb] at hb
            cases hb
          · exact Or.inr ⟨hbb, hnf, hg, hp, d', hd', rfl⟩
    · rw [hstep, if_neg hb]
      by_cases hnf : c.noflow (loc_sum next d) = true
      · rw [if_pos hnf]
        obtain ⟨m1, m2, m3, m4⟩ := ih H out
          (fun d' hd' => hdisj d' (List.mem_cons_of_mem d hd'))
          h1 h2 hnd (List.nodup_cons.mp hDnd).2
        refine ⟨fun l => ?_, m2, m3, m4⟩
        rw [m1 l]
        constructor
        · rintro (h | ⟨hbb, hnf', hg, hp, d', hd', rfl⟩)
          · exact Or.inl h
          · exact Or.inr ⟨hbb, hnf', hg, hp, d', List.mem_cons_of_mem d hd', rfl⟩
        · rintro (h | ⟨hbb, hnf', hg, hp, d', hd', rfl⟩)
          · exact Or.inl h
          · rcases List.mem_cons.mp hd' with rfl | hd'
            · rw [hnf] at hnf'
              cases hnf'
            · exact Or.inr ⟨hbb, hnf', hg, hp, d', hd', rfl⟩
      · rw [if_neg hnf]
        by_cases hg0 : H (loc_sum next d) ≠ 0
        · rw [if_pos hg0]
          have hG0 : G (loc_sum next d) ≠ 0 := by
            rw [← h2 _ hchout]
            exact hg0
          obtain ⟨m1, m2, m3, m4⟩ := ih H out
            (fun d' hd' => hdisj d' (List.mem_cons_of_mem d hd'))
            h1 h2 hnd (List.nodup_cons.mp hDnd).2
          refine ⟨fun l => ?_, m2, m3, m4⟩
          rw [m1 l]
          constructor
          · rintro (h | ⟨hbb, hnf', hg, hp, d', hd', rfl⟩)
            · exact Or.inl h
            · exact Or.inr ⟨hbb, hnf', hg, hp, d',
                List.mem_cons_of_mem d hd', rfl⟩
          · rintro (h | ⟨hbb, hnf', hg, hp, d', hd', rfl⟩)
            · exact Or.inl h
            · rcases List.mem_cons.mp hd' with rfl | hd'
              · exact absurd hg hG0
              · exact Or.inr ⟨hbb, hnf', hg, hp, d', hd', rfl⟩
        · rw [if_neg hg0]
          by_cases hp : loc_sum next d = p
          · rw [if_pos hp]
            obtain ⟨m1, m2, m3, m4⟩ := ih H out
              (fun d' hd' => hdisj d' (List.mem_cons_of_mem d hd'))
              h1 h2 hnd (List.nodup_cons.mp hDnd).2
            refine ⟨fun l => ?_, m2, m3, m4⟩
            rw [m1 l]
            constructor
            · rintro (h | ⟨hbb, hnf', hg, hpp, d', hd', rfl⟩)
              · exact Or.inl h
              · exact Or.inr ⟨hbb, hnf', hg, hpp, d',
                  List.mem_cons_of_mem d hd', rfl⟩
            · rintro (h | ⟨hbb, hnf', hg, hpp, d', hd', rfl⟩)
              · exact Or.inl h
              · rcases List.mem_cons.mp hd' with rfl | hd'
                · exact absurd hp hpp
                · exact Or.inr ⟨hbb, hnf', hg, hpp, d', hd', rfl⟩
          · rw [if_neg hp]
            push_neg at hg0
            have hG0 : G (loc_sum next d) = 0 := by
              rw [← h2 _ hchout]
              exact hg0
            have hdisj' : ∀ d' ∈ D, loc_sum next d' ∉ out ++ [loc_sum next d] := by
              intro d' hd' hmem
              rcases List.mem_append.mp hmem with h | h
              · exact hdisj d' (List.mem_cons_of_mem d hd') h
              · have : d' = d := loc_sum_inj_right next (List.mem_singleton.mp h)
                rw [this] at hd'
                exact (List.nodup_cons.mp hDnd).1 hd'
            have h1' : ∀ l ∈ out ++ [loc_sum next d],
                Function.update H (loc_sum next d) noise l = noise := by
              intro l hl
              rcases List.mem_append.mp hl with h | h
              · rw [Function.update_noteq (fun he => hchout (by rw [← he]; exact h))]
                exact h1 l h
              · rw [List.mem_singleton.mp h, Function.update_same]
            have h2' : ∀ l, l ∉ out ++ [loc_sum next d] →
                Function.update H (loc_sum next d) noise l = G l := by
              intro l hl
              have hlch : l ≠ loc_sum next d := by
                intro he
                exact hl (he ▸ List.mem_append_right out (List.mem_singleton_self _))
              rw [Function.update_noteq hlch]
              exact h2 l (fun h => hl (List.mem_append_left _ h))
            have hnd' : (out ++ [loc_sum next d]).Nodup := by
              rw [List.nodup_append]
              exact ⟨hnd, List.nodup_singleton _,
                fun a ha hb => hchout ((List.mem_singleton.mp hb) ▸ ha)⟩
            obtain ⟨m1, m2, m3, m4⟩ := ih _ _ hdisj' h1' h2' hnd'
              (List.nodup_cons.mp hDnd).2
            refine ⟨fun l => ?_, m2, m3, m4⟩
            rw [m1 l]
            simp only [Bool.not_eq_true] at hnf hb
            have hbT : square_in_bounds c (loc_sum next d) = true := by
              simpa using hb
            constructor
            · rintro (h | ⟨hbb, hnf', hg, hpp, d', hd', rfl⟩)
              · rcases List.mem_append.mp h with h | h
                · exact Or.inl h
                · rw [List.mem_singleton.mp h]
                  exact Or.inr ⟨hbT, hnf, hG0, hp, d, List.mem_cons_self d D, rfl⟩
              · exact Or.inr ⟨hbb, hnf', hg, hpp, d',
                  List.mem_cons_of_mem d hd', rfl⟩
            · rintro (h | ⟨hbb, hnf', hg, hpp, d', hd', rfl⟩)
              · exact Or.inl (List.mem_append_left _ h)
              · rcases List.mem_cons.mp hd' with rfl | hd'
                · exact Or.inl (List.mem_append_right _ (List.mem_singleton_self _))
                · exact Or.inr ⟨hbb, hnf', hg, hpp, d', hd', rfl⟩

/-- The specification of one expansion of `make_noise`: the grids
enqueued are exactly the in-bounds, sound-transmitting, silent,
non-player neighbours of the expanded grid; each is assigned the
current noise value; every other grid keeps its value. -/
theorem noise_expand_spec (c : Cave) (p : Loc) (noise : Nat) (next : Loc)
    (G : Loc → Nat) (hnz : noise ≠ 0) :
    (∀ l, l ∈ (noise_expand c p noise next G).2 ↔
      (square_in_bounds c l = true ∧ c.noflow l = false ∧ G l = 0 ∧
        l ≠ p ∧ grid_adjacent next l)) ∧
    (∀ l ∈ (noise_expand c p noise next G).2,
      (noise_expand c p noise next G).1 l = noise) ∧
    (∀ l, l ∉ (noise_expand c p noise next G).2 →
      (noise_expand c p noise next G).1 l = G l) ∧
    (noise_expand c p noise next G).2.Nodup := by
  have := noise_expand_go c p noise next G hnz ddgrid_ddd G []
    (by intro d _ h; cases h) (by intro l h; cases h) (fun l _ => rfl)
    List.nodup_nil (by decide)
  obtain ⟨m1, m2, m3, m4⟩ := this
  refine ⟨fun l => ?_, m2, m3, m4⟩
  show l ∈ (List.foldl (noise_expand_step c p noise next) (G, []) ddgrid_ddd).2 ↔ _
  rw [m1 l]
  simp only [List.not_mem_nil, false_or]
  rfl

/-! ## The grid after reset and seeding -/

/-- The noise grid right after the reset loop and the seeding of the
player's grid. -/
def noise_base (c : Cave) (p : Loc) (G : Loc → Nat) : Loc → Nat :=
  Function.update (noise_reset c G) p 0

/-- Under the border invariants, the reset-and-seeded grid is silent on
every in-bounds grid. -/
theorem noise_base_zero (c : Cave) (p : Loc) (G : Loc → Nat)
    (hbzero : ∀ l, square_in_bounds c l = true →
      square_in_bounds_fully c l = false → G l = 0) :
    ∀ l, square_in_bounds c l = true → noise_base c p G l = 0 := by
  intro l hb
  unfold noise_base
  by_cases hlp : l = p
  · rw [hlp, Function.update_same]
  · rw [Function.update_noteq hlp]
    unfold noise_reset
    by_cases hf : square_in_bounds_fully c l = true
    · rw [if_pos hf]
    · rw [if_neg hf]
      exact hbzero l hb (by simpa using hf)

/-- An empty queue ends the loop with the grid unchanged, whatever the
fuel. -/
theorem noise_loop_nil (c : Cave) (p : Loc) (inc : Nat) (fuel : Nat)
    (noise : Nat) (G : Loc → Nat) :
    noise_loop c p inc fuel [] noise G = G := by
  cases fuel <;> rfl

/-! ## Counting unvisited grids (for fuel accounting) -/

/-- The in-bounds grids of the level, as a finite set. -/
def boundsRect (c : Cave) : Finset Loc :=
  ((Finset.Icc (0 : Int) (c.height - 1)) ×ˢ
    (Finset.Icc (0 : Int) (c.width - 1))).image (fun yx => ⟨yx.1, yx.2⟩)

theorem mem_boundsRect (c : Cave) (l : Loc) :
    l ∈ boundsRect c ↔ square_in_bounds c l = true := by
  unfold boundsRect square_in_bounds
  simp only [Finset.mem_image, Finset.mem_product, Finset.mem_Icc]
  constructor
  · rintro ⟨⟨y, x⟩, ⟨⟨hy0, hy1⟩, hx0, hx1⟩, rfl⟩
    simp only [Bool.and_eq_true, decide_eq_true_eq]
    omega
  · intro h
    simp only [Bool.and_eq_true, decide_eq_true_eq] at h
    exact ⟨(l.y, l.x), ⟨⟨by omega, by omega⟩, by omega, by omega⟩, rfl⟩

theorem boundsRect_card (c : Cave) :
    (boundsRect c).card ≤ c.height.toNat * c.width.toNat := by
  calc (boundsRect c).card
      ≤ ((Finset.Icc (0 : Int) (c.height - 1)) ×ˢ
          (Finset.Icc (0 : Int) (c.width - 1))).card := Finset.card_image_le
    _ = (Finset.Icc (0 : Int) (c.height - 1)).card *
          (Finset.Icc (0 : Int) (c.width - 1)).card := Finset.card_product _ _
    _ ≤ c.height.toNat * c.width.toNat := by
        have h1 : (Finset.Icc (0 : Int) (c.height - 1)).card = (c.height - 1 + 1 - 0).toNat :=
          Int.card_Icc _ _
        have h2 : (Finset.Icc (0 : Int) (c.width - 1)).card = (c.width - 1 + 1 - 0).toNat :=
          Int.card_Icc _ _
        rw [h1, h2]
        have e1 : (c.height - 1 + 1 - 0).toNat = c.height.toNat := by omega
        have e2 : (c.width - 1 + 1 - 0).toNat = c.width.toNat := by omega
        rw [e1, e2]

/-- The open (assignable) grids not yet reachable within `j` steps. -/
def pendingSet (c : Cave) (p : Loc) (j : Nat) : Finset Loc :=
  (boundsRect c).filter
    (fun l => c.noflow l = false ∧ l ≠ p ∧ reachB c p j l = false)

theorem pendingSet_mono (c : Cave) (p : Loc) (j : Nat) :
    pendingSet c p (j + 1) ⊆ pendingSet c p j := by
  intro l hl
  simp only [pendingSet, Finset.mem_filter] at hl ⊢
  refine ⟨hl.1, hl.2.1, hl.2.2.1, ?_⟩
  rcases hr : reachB c p j l with _ | _
  · rfl
  · have := reachB_mono c p (Nat.le_succ j) hr
    rw [this] at hl
    simp at hl

theorem pendingSet_card_le (c : Cave) (p : Loc) (j : Nat) :
    (pendingSet c p j).card ≤ c.height.toNat * c.width.toNat :=
  Nat.le_trans (Finset.card_le_card (Finset.filter_subset _ _)) (boundsRect_card c)

/-- The grids at distance `j + 1` are pending at `j` but not at
`j + 1`; listing them without duplicates bounds the pending count. -/
theorem pendingSet_split (c : Cave) (p : Loc) (j : Nat) (N : List Loc)
    (hN : ∀ l ∈ N, dist_eq c p (j + 1) l) (hnd : N.Nodup) :
    (pendingSet c p (j + 1)).card + N.length ≤ (pendingSet c p j).card := by
  have hsub : pendingSet c p (j + 1) ∪ N.toFinset ⊆ pendingSet c p j := by
    intro l hl
    rcases Finset.mem_union.mp hl with h | h
    · exact pendingSet_mono c p j h
    · have hd := hN l (List.mem_toFinset.mp h)
      have hopen := dist_eq_open c p hd
      simp only [pendingSet, Finset.mem_filter, mem_boundsRect]
      refine ⟨hopen.2.1, hopen.2.2, hopen.1, ?_⟩
      rcases hd.2 with h0 | hf
      · omega
      · simpa using hf
  have hdisj : Disjoint (pendingSet c p (j + 1)) N.toFinset := by
    rw [Finset.disjoint_left]
    intro l hl hl'
    have hd := hN l (List.mem_toFinset.mp hl')
    simp only [pendingSet, Finset.mem_filter] at hl
    rw [hd.1] at hl
    simp at hl
  calc (pendingSet c p (j + 1)).card + N.length
      = (pendingSet c p (j + 1)).card + N.toFinset.card := by
        rw [List.toFinset_card_of_nodup hnd]
    _ = (pendingSet c p (j + 1) ∪ N.toFinset).card :=
        (Finset.card_union_of_disjoint hdisj).symm
    _ ≤ (pendingSet c p j).card := Finset.card_le_card hsub

/-- If no grid lies at distance `j`, none lies at any greater
distance. -/
theorem layer_empty_above (c : Cave) (p : Loc) (j : Nat)
    (h : ∀ l, ¬ dist_eq c p j l) :
    ∀ k, j ≤ k → ∀ l, ¬ dist_eq c p k l := by
  intro k
  induction k with
  | zero =>
    intro hk l
    have : j = 0 := Nat.le_zero.mp hk
    rw [← this]
    exact h l
  | succ n ih =>
    intro hk l hd
    rcases Nat.lt_or_ge j (n + 1) with hlt | hge
    · obtain ⟨m, hm, -⟩ := dist_eq_succ_neighbor c p hd
      exact ih (Nat.lt_succ_iff.mp hlt) m hm
    · have : j = n + 1 := by omega
      rw [← this] at hd
      exact h l hd

/-! ## The wavefront invariants

While the loop is expanding layer `j` at counter `(j+1)·inc`, the queue
is `E ++ N`: `E` holds the still-unexpanded grids of layer `j` and `N`
the already-discovered grids of layer `j+1`.  Every undiscovered layer
`j+1` grid still has an unexpanded neighbour in `E`; grids of layers up
to `j` hold their final value, discovered grids hold `(j+1)·inc`, and
everything else is still at its reset value. -/

def noise_inner_inv (c : Cave) (p : Loc) (inc : Nat) (G : Loc → Nat)
    (j : Nat) (E N : List Loc) (H : Loc → Nat) : Prop :=
  (∀ l ∈ E, dist_eq c p j l) ∧
  (∀ l ∈ N, dist_eq c p (j + 1) l) ∧
  (E ++ N).Nodup ∧
  (∀ l, dist_eq c p (j + 1) l → l ∉ N → ∃ m ∈ E, grid_adjacent m l) ∧
  (∀ l k, k ≤ j → dist_eq c p k l → H l = k * inc) ∧
  (∀ l ∈ N, H l = (j + 1) * inc) ∧
  (∀ l, dist_eq c p (j + 1) l → l ∉ N → H l = noise_base c p G l) ∧
  (∀ l, (∀ k, k ≤ j + 1 → ¬ dist_eq c p k l) → H l = noise_base c p G l)

/-- Expanding the head of `E` preserves the inner invariant: the newly
enqueued grids are exactly the undiscovered layer `j+1` neighbours of
the expanded grid. -/
theorem noise_inner_step (c : Cave) (p : Loc) (inc : Nat) (G : Loc → Nat)
    (hinc : 1 ≤ inc)
    (hbzero : ∀ l, square_in_bounds c l = true →
      square_in_bounds_fully c l = false → G l = 0)
    (j : Nat) (hj : 1 ≤ j) (e : Loc) (E N : List Loc) (H : Loc → Nat)
    (hInv : noise_inner_inv c p inc G j (e :: E) N H) :
    noise_inner_inv c p inc G j E
      (N ++ (noise_expand c p ((j + 1) * inc) e H).2)
      (noise_expand c p ((j + 1) * inc) e H).1 ∧
    H e ≠ (j + 1) * inc := by
  obtain ⟨i1, i2, i3, i4, i5, i6, i7, i8⟩ := hInv
  have hde : dist_eq c p j e := i1 e (List.mem_cons_self e E)
  have hHe : H e = j * inc := i5 e j (Nat.le_refl j) hde
  have hnz : (j + 1) * inc ≠ 0 := by positivity
  obtain ⟨m1, m2, m3, m4⟩ := noise_expand_spec c p ((j + 1) * inc) e H hnz
  have hnewdist : ∀ l ∈ (noise_expand c p ((j + 1) * inc) e H).2,
      dist_eq c p (j + 1) l := by
    intro l hl
    obtain ⟨hb, hnf, hH0, hnp, hadj⟩ := (m1 l).mp hl
    have hreach : reachB c p (j + 1) l = true :=
      reachB_of_neighbor c p hde hadj hnp hb hnf
    have hnot : reachB c p j l = false := by
      rcases hr : reachB c p j l with _ | _
      · rfl
      · exfalso
        obtain ⟨k0, hk0, hd0⟩ := exists_dist_of_reachB c p j l hr
        have := i5 l k0 hk0 hd0
        rw [hH0] at this
        rcases Nat.eq_zero_or_pos k0 with h0 | hpos
        · rw [h0] at hd0
          exact hnp ((dist_eq_zero c p l).mp hd0)
        · have : k0 * inc ≠ 0 := by positivity
          omega
    exact ⟨hreach, Or.inr (by simpa using hnot)⟩
  have hnew_not_mem : ∀ l ∈ (noise_expand c p ((j + 1) * inc) e H).2,
      l ∉ e :: (E ++ N) := by
    intro l hl hmem
    obtain ⟨-, -, hH0, -, -⟩ := (m1 l).mp hl
    rcases List.mem_cons.mp hmem with rfl | hmem
    · rw [hHe] at hH0
      have : j * inc ≠ 0 := by positivity
      omega
    · rcases List.mem_append.mp hmem with hE | hN
      · have := i5 l j (Nat.le_refl j) (i1 l (List.mem_cons_of_mem e hE))
        rw [hH0] at this
        have : j * inc ≠ 0 := by positivity
        omega
      · have := i6 l hN
        rw [hH0] at this
        omega
  refine ⟨⟨?_, ?_, ?_, ?_, ?_, ?_, ?_, ?_⟩, ?_⟩
  · exact fun l hl => i1 l (List.mem_cons_of_mem e hl)
  · intro l hl
    rcases List.mem_append.mp hl with hN | hX
    · exact i2 l hN
    · exact hnewdist l hX
  · have hEN : (E ++ N).Nodup := by
      have := i3
      rw [List.cons_append, List.nodup_cons] at this
      exact this.2
    rw [← List.append_assoc]
    rw [List.nodup_append]
    refine ⟨hEN, m4, ?_⟩
    intro a ha hb
    exact hnew_not_mem a hb (List.mem_cons_of_mem e ha)
  · intro l hdl hlnot
    have hlN : l ∉ N := fun h => hlnot (List.mem_append_left _ h)
    have hlX : l ∉ (noise_expand c p ((j + 1) * inc) e H).2 :=
      fun h => hlnot (List.mem_append_right _ h)
    obtain ⟨m, hm, hadj⟩ := i4 l hdl hlN
    rcases List.mem_cons.mp hm with rfl | hm
    · exfalso
      apply hlX
      rw [m1 l]
      have hopen := dist_eq_open c p hdl
      have hbase : H l = noise_base c p G l := i7 l hdl hlN
      have hzero : noise_base c p G l = 0 :=
        noise_base_zero c p G hbzero l hopen.2.1
      exact ⟨hopen.2.1, hopen.2.2, by rw [hbase, hzero], hopen.1, hadj⟩
    · exact ⟨m, hm, hadj⟩
  · intro l k hk hdk
    have hlX : l ∉ (noise_expand c p ((j + 1) * inc) e H).2 := by
      intro h
      have := dist_eq_unique c p hdk (hnewdist l h)
      omega
    rw [m3 l hlX]
    exact i5 l k hk hdk
  · intro l hl
    rcases List.mem_append.mp hl with hN | hX
    · have hlX : l ∉ (noise_expand c p ((j + 1) * inc) e H).2 := by
        intro h
        obtain ⟨-, -, hH0, -, -⟩ := (m1 l).mp h
        have := i6 l hN
        rw [hH0] at this
        omega
      rw [m3 l hlX]
      exact i6 l hN
    · exact m2 l hX
  · intro l hdl hlnot
    have hlX : l ∉ (noise_expand c p ((j + 1) * inc) e H).2 :=
      fun h => hlnot (List.mem_append_right _ h)
    rw [m3 l hlX]
    exact i7 l hdl (fun h => hlnot (List.mem_append_left _ h))
  · intro l hnone
    have hlX : l ∉ (noise_expand c p ((j + 1) * inc) e H).2 := by
      intro h
      exact hnone (j + 1) (Nat.le_refl _) (hnewdist l h)
    rw [m3 l hlX]
    exact i8 l hnone
  · rw [hHe]
    have : j * inc < (j + 1) * inc := by
      have : j * inc + inc = (j + 1) * inc := by ring
      omega
    omega

/-! ## Claim theorems: energy table and new-level energy -/

/-- C7: the speed-to-energy table has exactly 200 entries, is
monotonically non-decreasing (`table[s] <= table[s+1]` for every
`0 <= s <= 198`), and its minimum entry is 1 and its maximum 49. -/
theorem extract_energy_props :
    extract_energy.length = 200 ∧
    (∀ s : Fin 199, extract_energy.getD s.val 0 ≤ extract_energy.getD (s.val + 1) 0) ∧
    (∀ s : Fin 200, 1 ≤ extract_energy.getD s.val 0 ∧ extract_energy.getD s.val 0 ≤ 49) ∧
    (∃ s : Fin 200, extract_energy.getD s.val 0 = 1) ∧
    (∃ s : Fin 200, extract_energy.getD s.val 0 = 49) := by
  refine ⟨by decide, by decide, by decide, ⟨0, by decide⟩, ⟨199, by decide⟩⟩

/-- C10: arriving on a new level raises the player's energy to exactly
the move threshold when it was below it, leaves it unchanged when it was
already at or above it, and never reduces it. -/
theorem on_new_level_energy_props (move_energy energy : Nat) :
    (energy < move_energy → on_new_level_energy move_energy energy = move_energy) ∧
    (move_energy ≤ energy → on_new_level_energy move_energy energy = energy) ∧
    energy ≤ on_new_level_energy move_energy energy := by
  unfold on_new_level_energy
  refine ⟨fun h => by simp [h], fun h => by simp [Nat.not_lt.mpr h], ?_⟩
  split
  · exact Nat.le_of_lt (by assumption)
  · exact Nat.le_refl _

/-- Witness for C10 at a concrete input: energy 50 below a threshold of
100 is raised to 100, and energy 150 is kept. -/
theorem on_new_level_energy_props_witness :
    on_new_level_energy 100 50 = 100 ∧ on_new_level_energy 100 150 = 150 :=
  ⟨(on_new_level_energy_props 100 50).1 (by decide),
   (on_new_level_energy_props 100 150).2.1 (by decide)⟩

end Angband
